import Mathlib

/-!
Shallow embedding of the `dex` crate of the enshrined-dex repository
(`src/crates/dex/src/{types,order,config,pair,orderbook,router,pool_manager}.rs`)
and proofs about the claims of its specification.

Modelling conventions:
* `U256` values are `Nat`s; the saturating / checked operations of the source
  (`saturating_mul`, `checked_mul`, …) are made explicit with `2^256 - 1` as
  the saturation point, and `u128` operations with `2^128 - 1`.
* Rust's `Nat` subtraction (`saturating_sub`) coincides with Lean's `Nat`
  truncated subtraction.
* `Address` (20 bytes) is a `Nat`; lexicographic byte order on addresses is
  numeric order.
* `BTreeMap<PriceKey, Vec<Order>>` is an association list of price levels kept
  in the key order of the map; key search (`get`, `entry`, `get_mut`) is
  modelled as an in-order walk that stops at the first key comparing greater
  than the probe, which is how a search tree prunes.
* `HashMap` is an association list with first-match lookup.
* `keccak256` of the sorted concatenation of two addresses (in `PairId`) is
  modelled by the injective stand-in that returns the sorted pair itself.
* `Order.timestamp` (host wall clock, informational only, read by nothing in
  the engine) is modelled as the constant 0.
-/

namespace Dex

/-- `u256::MAX`: saturation point of the 256-bit arithmetic. -/
def U256MAX : Nat := 2 ^ 256 - 1

/-- `u128::MAX`: saturation point of the 128-bit fee arithmetic. -/
def U128MAX : Nat := 2 ^ 128 - 1

/-- `U256::saturating_add`. -/
def satAdd (a b : Nat) : Nat := min (a + b) U256MAX

/-- `U256::saturating_mul`. -/
def satMul (a b : Nat) : Nat := min (a * b) U256MAX

/-- `u128::saturating_mul`. -/
def satMul128 (a b : Nat) : Nat := min (a * b) U128MAX

/-- `U256::checked_mul`. -/
def checkedMul (a b : Nat) : Option Nat :=
  if a * b ≤ U256MAX then some (a * b) else none

/-- `U256 -> u128` conversion via `try_into().unwrap_or(u128::MAX)`. -/
def toU128Sat (a : Nat) : Nat := min a U128MAX

/-- `Ord::cmp` on unsigned integers. -/
def natCmp (a b : Nat) : Ordering :=
  if a < b then .lt else if a = b then .eq else .gt

/-- `types.rs`: rational price `numerator / denominator`, quote per base. -/
structure Price where
  numerator : Nat
  denominator : Nat
deriving DecidableEq, Repr

/-- `Price::quote_amount`: `(base * numerator) / denominator`, checked. -/
def Price.quote_amount (p : Price) (base : Nat) : Option Nat :=
  match checkedMul base p.numerator with
  | none => none
  | some x => if p.denominator = 0 then none else some (x / p.denominator)

/-- `Price::base_amount`: `(quote * denominator) / numerator`, checked. -/
def Price.base_amount (p : Price) (quote : Nat) : Option Nat :=
  match checkedMul quote p.denominator with
  | none => none
  | some x => if p.numerator = 0 then none else some (x / p.numerator)

/-- `Price::cmp_value`: cross-multiplied comparison with saturating products. -/
def Price.cmp_value (p q : Price) : Ordering :=
  natCmp (satMul p.numerator q.denominator) (satMul q.numerator p.denominator)

/-- `Price::invert`. -/
def Price.invert (p : Price) : Price :=
  { numerator := p.denominator, denominator := p.numerator }

/-- `order.rs`: side of an order. -/
inductive OrderSide where
  | Buy
  | Sell
deriving DecidableEq, Repr

/-- `order.rs`: limit or market. -/
inductive OrderType where
  | Limit
  | Market
deriving DecidableEq, Repr

/-- `order.rs`: order status. -/
inductive OrderStatus where
  | Open
  | PartiallyFilled
  | Filled
  | Cancelled
deriving DecidableEq, Repr

/-- `order.rs`: an order record (timestamp modelled as 0, see header). -/
structure Order where
  id : Nat
  trader : Nat
  side : OrderSide
  order_type : OrderType
  price : Price
  original_amount : Nat
  remaining_amount : Nat
  status : OrderStatus
  timestamp : Nat
deriving DecidableEq, Repr

/-- `Order::new_limit`. -/
def Order.new_limit (id trader : Nat) (side : OrderSide) (price : Price)
    (amount : Nat) : Order :=
  { id := id, trader := trader, side := side, order_type := .Limit,
    price := price, original_amount := amount, remaining_amount := amount,
    status := .Open, timestamp := 0 }

/-- `Order::new_market`: sentinel price `(MAX, 1)` for buys, `(1, MAX)` for sells. -/
def Order.new_market (id trader : Nat) (side : OrderSide) (amount : Nat) : Order :=
  let price : Price := match side with
    | .Buy => { numerator := U256MAX, denominator := 1 }
    | .Sell => { numerator := 1, denominator := U256MAX }
  { id := id, trader := trader, side := side, order_type := .Market,
    price := price, original_amount := amount, remaining_amount := amount,
    status := .Open, timestamp := 0 }

/-- `Order::is_active`. -/
def Order.is_active (o : Order) : Bool :=
  match o.status with
  | .Open => true
  | .PartiallyFilled => true
  | .Filled => false
  | .Cancelled => false

/-- `Order::fill`: saturating subtraction, transition to Filled at zero. -/
def Order.fill (o : Order) (amount : Nat) : Order :=
  let rem := o.remaining_amount - amount
  { o with remaining_amount := rem,
           status := if rem = 0 then .Filled else .PartiallyFilled }

/-- `Order::cancel`. -/
def Order.cancel (o : Order) : Order :=
  { o with status := .Cancelled }

/-- `config.rs`: engine configuration. -/
structure DexConfig where
  fee_bps : Nat
  max_routing_hops : Nat
  min_order_size : Nat
  allow_self_trade : Bool
deriving DecidableEq, Repr

/-- `DexConfig::default`. -/
def DexConfig.default : DexConfig :=
  { fee_bps := 30, max_routing_hops := 3, min_order_size := 1,
    allow_self_trade := false }

/-- `DexConfig::calculate_fee`: `amount.saturating_mul(fee_bps) / 10000` in `u128`. -/
def DexConfig.calculate_fee (c : DexConfig) (amount : Nat) : Nat :=
  satMul128 amount c.fee_bps / 10000

/-- `orderbook.rs`: a single fill between a taker and a maker. -/
structure Fill where
  maker_order_id : Nat
  maker : Nat
  base_amount : Nat
  quote_amount : Nat
  price : Price
  taker_fee : Nat
  maker_fee : Nat
deriving DecidableEq, Repr

/-- `orderbook.rs`: result of executing a trade. -/
structure TradeResult where
  taker_order_id : Nat
  fills : List Fill
  remaining_amount : Nat
  fully_filled : Bool
deriving DecidableEq, Repr

/-- `orderbook.rs`: locator stored in the order index. -/
structure OrderLocation where
  side : OrderSide
  price_key : Price
deriving DecidableEq, Repr

/-- `pair.rs`: directional trading pair. -/
structure Pair where
  base : Nat
  quote : Nat
deriving DecidableEq, Repr

/-- `PairId::from_tokens`: keccak of the lexicographically sorted address pair,
modelled by the injective stand-in returning the sorted pair itself. -/
def PairId.from_tokens (a b : Nat) : Nat × Nat :=
  if a ≤ b then (a, b) else (b, a)

/-- `Pair::id`. -/
def Pair.id (p : Pair) : Nat × Nat := PairId.from_tokens p.base p.quote

/-- `orderbook.rs`: the book. `bids`/`asks` are price levels in map key order
(bids descending, asks ascending by `cmp_value`), each level a FIFO queue. -/
structure OrderBook where
  pair : Pair
  bids : List (Price × List Order)
  asks : List (Price × List Order)
  orders : List (Nat × OrderLocation)
  next_order_id : Nat
  total_volume : Nat
deriving DecidableEq, Repr

/-- `OrderBook::new`. -/
def OrderBook.new (pair : Pair) : OrderBook :=
  { pair := pair, bids := [], asks := [], orders := [],
    next_order_id := 1, total_volume := 0 }

/-- `PriceKey::cmp`: asks compare by `cmp_value` directly, bids reversed. -/
def levelCmp (is_bid : Bool) (p q : Price) : Ordering :=
  if is_bid then Price.cmp_value q p else Price.cmp_value p q

/-- `orderbook.rs` errors. -/
inductive OrderError where
  | BelowMinimumSize
  | OrderNotFound
  | InsufficientLiquidity
  | InvalidPrice
deriving DecidableEq, Repr

/-- The price-compatibility check of `match_order`:
buy takers need `taker.price >= level.price`, sell takers `taker.price <= level.price`
(`>=`/`<=` via `Ord`, i.e. `cmp_value`). -/
def priceCompatible (taker : Order) (p : Price) : Bool :=
  match taker.side with
  | .Buy => !(Price.cmp_value taker.price p == Ordering.lt)
  | .Sell => !(Price.cmp_value taker.price p == Ordering.gt)

/-- One fill of `match_order`'s inner loop, applied to the taker and maker as
they stand immediately before the fill: base amount is the minimum of the two
remaining amounts, the quote amount is the maker-price conversion (zero on
overflow), the taker fee is `calculate_fee` of the quote truncated to `u128`,
and both orders are advanced by `Order::fill`. -/
def mkFill (config : DexConfig) (taker maker : Order) : Fill × Order × Order :=
  let base := min taker.remaining_amount maker.remaining_amount
  let quote := (maker.price.quote_amount base).getD 0
  let fee := config.calculate_fee (toU128Sat quote)
  ({ maker_order_id := maker.id, maker := maker.trader, base_amount := base,
     quote_amount := quote, price := maker.price, taker_fee := fee,
     maker_fee := 0 },
   taker.fill base, maker.fill base)

/-- Result of walking one price level's queue (the `while i < orders.len()` loop). -/
structure WalkResult where
  taker : Order
  queue : List Order
  fills : List Fill
  removed : List Nat
  volume : Nat
deriving Repr

/-- The inner loop of `match_order` over one level's FIFO queue: stop when the
taker is exhausted, skip inactive makers, skip same-trader makers when
self-trading is disallowed, otherwise fill; newly inactive makers are recorded
for removal from the order index, volume is accumulated saturating. -/
def matchQueue (config : DexConfig) (taker : Order) (vol : Nat) :
    List Order → WalkResult
  | [] => ⟨taker, [], [], [], vol⟩
  | m :: rest =>
    if taker.remaining_amount = 0 then ⟨taker, m :: rest, [], [], vol⟩
    else if m.is_active = false then
      let r := matchQueue config taker vol rest
      ⟨r.taker, m :: r.queue, r.fills, r.removed, r.volume⟩
    else if config.allow_self_trade = false ∧ taker.trader = m.trader then
      let r := matchQueue config taker vol rest
      ⟨r.taker, m :: r.queue, r.fills, r.removed, r.volume⟩
    else
      let s := mkFill config taker m
      let r := matchQueue config s.2.1 (satAdd vol s.1.base_amount) rest
      ⟨r.taker, s.2.2 :: r.queue, s.1 :: r.fills,
        (if s.2.2.is_active then [] else [s.2.2.id]) ++ r.removed, r.volume⟩

/-- Result of the level loop of `match_order`. -/
structure LevelsResult where
  taker : Order
  levels : List (Price × List Order)
  fills : List Fill
  removed : List Nat
  volume : Nat
deriving Repr

/-- The level loop of `match_order`: walk levels in map order, stop when the
taker is exhausted or its limit price no longer crosses the level; after each
level retain only active orders (`orders.retain`) and drop the level when its
queue became empty. -/
def matchLevels (config : DexConfig) (taker : Order) (vol : Nat) :
    List (Price × List Order) → LevelsResult
  | [] => ⟨taker, [], [], [], vol⟩
  | (p, q) :: rest =>
    if taker.remaining_amount = 0 then ⟨taker, (p, q) :: rest, [], [], vol⟩
    else if priceCompatible taker p = false then ⟨taker, (p, q) :: rest, [], [], vol⟩
    else
      let w := matchQueue config taker vol q
      let q' := w.queue.filter (·.is_active)
      let r := matchLevels config w.taker w.volume rest
      ⟨r.taker, (if q' = [] then r.levels else (p, q') :: r.levels),
        w.fills ++ r.fills, w.removed ++ r.removed, r.volume⟩

/-- `HashMap::remove` of a batch of `OrderId`s from the order index
(the index has unique keys, so filtering equals removing each in turn). -/
def eraseIds (l : List (Nat × OrderLocation)) (ids : List Nat) :
    List (Nat × OrderLocation) :=
  l.filter (fun e => !(decide (e.1 ∈ ids)))

/-- `OrderBook::match_order`: dispatch on the taker side, run the level loop on
the opposite side, write back the surviving levels, the pruned index and the
updated volume, and build the `TradeResult`. -/
def OrderBook.match_order (book : OrderBook) (taker : Order) (config : DexConfig) :
    Order × TradeResult × OrderBook :=
  match taker.side with
  | .Buy =>
    let r := matchLevels config taker book.total_volume book.asks
    (r.taker,
     { taker_order_id := r.taker.id, fills := r.fills,
       remaining_amount := r.taker.remaining_amount,
       fully_filled := r.taker.remaining_amount = 0 },
     { book with asks := r.levels, orders := eraseIds book.orders r.removed,
                 total_volume := r.volume })
  | .Sell =>
    let r := matchLevels config taker book.total_volume book.bids
    (r.taker,
     { taker_order_id := r.taker.id, fills := r.fills,
       remaining_amount := r.taker.remaining_amount,
       fully_filled := r.taker.remaining_amount = 0 },
     { book with bids := r.levels, orders := eraseIds book.orders r.removed,
                 total_volume := r.volume })

/-- `BTreeMap::entry(key).or_insert_with(Vec::new)` followed by a tail push:
walk the levels in key order; insert a fresh level before the first greater
key, append to the queue of a key comparing equal (the map keeps the existing
key), otherwise keep walking. -/
def insertIntoLevels (is_bid : Bool) (o : Order) :
    List (Price × List Order) → List (Price × List Order)
  | [] => [(o.price, [o])]
  | (p, q) :: rest =>
    match levelCmp is_bid o.price p with
    | .lt => (o.price, [o]) :: (p, q) :: rest
    | .eq => (p, q ++ [o]) :: rest
    | .gt => (p, q) :: insertIntoLevels is_bid o rest

/-- `HashMap::insert` on the order index. -/
def idxInsert (l : List (Nat × OrderLocation)) (k : Nat) (v : OrderLocation) :
    List (Nat × OrderLocation) :=
  (k, v) :: l.filter (fun e => !(decide (e.1 = k)))

/-- `OrderBook::add_order_to_book`. -/
def OrderBook.add_order_to_book (book : OrderBook) (o : Order) : OrderBook :=
  match o.side with
  | .Buy =>
      { book with bids := insertIntoLevels true o book.bids,
                  orders := idxInsert book.orders o.id ⟨.Buy, o.price⟩ }
  | .Sell =>
      { book with asks := insertIntoLevels false o book.asks,
                  orders := idxInsert book.orders o.id ⟨.Sell, o.price⟩ }

/-- `OrderBook::place_limit_order`: reject below `min_order_size`, take a fresh
id, match immediately, rest the active residual. -/
def OrderBook.place_limit_order (book : OrderBook) (trader : Nat)
    (side : OrderSide) (price : Price) (amount : Nat) (config : DexConfig) :
    Except OrderError (Nat × TradeResult) × OrderBook :=
  if amount < config.min_order_size then (.error .BelowMinimumSize, book)
  else
    let oid := book.next_order_id
    let book1 := { book with next_order_id := book.next_order_id + 1 }
    let order := Order.new_limit oid trader side price amount
    let m := book1.match_order order config
    let book2 :=
      if m.1.remaining_amount ≠ 0 ∧ m.1.is_active then
        m.2.2.add_order_to_book m.1
      else m.2.2
    (.ok (oid, m.2.1), book2)

/-- `OrderBook::place_market_order`: reject below `min_order_size`, take a
fresh id, match with the side's sentinel price, discard any residual. -/
def OrderBook.place_market_order (book : OrderBook) (trader : Nat)
    (side : OrderSide) (amount : Nat) (config : DexConfig) :
    Except OrderError TradeResult × OrderBook :=
  if amount < config.min_order_size then (.error .BelowMinimumSize, book)
  else
    let oid := book.next_order_id
    let book1 := { book with next_order_id := book.next_order_id + 1 }
    let order := Order.new_market oid trader side amount
    let m := book1.match_order order config
    (.ok m.2.1, m.2.2)

/-- `Vec::remove` of the first order with the given id
(`position(|o| o.id == order_id)` then `remove`). -/
def removeFirstById (oid : Nat) : List Order → Option (Order × List Order)
  | [] => none
  | o :: rest =>
    if o.id = oid then some (o, rest)
    else
      match removeFirstById oid rest with
      | none => none
      | some (o', rest') => some (o', o :: rest')

/-- `BTreeMap::get_mut` by price key followed by the queue surgery of
`cancel_order`: search the levels in key order (pruning at the first greater
key), remove the order from the matching level, drop the level if it became
empty. -/
def removeFromLevels (is_bid : Bool) (price : Price) (oid : Nat) :
    List (Price × List Order) → Option (Order × List (Price × List Order))
  | [] => none
  | (p, q) :: rest =>
    match levelCmp is_bid price p with
    | .lt => none
    | .eq =>
      match removeFirstById oid q with
      | none => none
      | some (o, q') => some (o, if q' = [] then rest else (p, q') :: rest)
    | .gt =>
      match removeFromLevels is_bid price oid rest with
      | none => none
      | some (o, rest') => some (o, (p, q) :: rest')

/-- `HashMap::remove` of a single id from the order index. -/
def idxErase (l : List (Nat × OrderLocation)) (k : Nat) :
    List (Nat × OrderLocation) :=
  l.filter (fun e => !(decide (e.1 = k)))

/-- `OrderBook::cancel_order`: locate via the index (removing the entry),
remove the order from its level's queue, drop the level if empty, return the
order with status Cancelled. The index entry stays removed on the (normally
unreachable) inner failure paths, as in the source. -/
def OrderBook.cancel_order (book : OrderBook) (oid : Nat) :
    Except OrderError Order × OrderBook :=
  match List.lookup oid book.orders with
  | none => (.error .OrderNotFound, book)
  | some loc =>
    let book1 := { book with orders := idxErase book.orders oid }
    match loc.side with
    | .Buy =>
      match removeFromLevels true loc.price_key oid book1.bids with
      | none => (.error .OrderNotFound, book1)
      | some (o, bids') => (.ok o.cancel, { book1 with bids := bids' })
    | .Sell =>
      match removeFromLevels false loc.price_key oid book1.asks with
      | none => (.error .OrderNotFound, book1)
      | some (o, asks') => (.ok o.cancel, { book1 with asks := asks' })

/-- `BTreeMap::get` by price key, modelled like the other key searches. -/
def findLevelQueue (is_bid : Bool) (price : Price) :
    List (Price × List Order) → Option (List Order)
  | [] => none
  | (p, q) :: rest =>
    match levelCmp is_bid price p with
    | .lt => none
    | .eq => some q
    | .gt => findLevelQueue is_bid price rest

/-- `OrderBook::get_order`. -/
def OrderBook.get_order (book : OrderBook) (oid : Nat) : Option Order :=
  match List.lookup oid book.orders with
  | none => none
  | some loc =>
    let q? := match loc.side with
      | .Buy => findLevelQueue true loc.price_key book.bids
      | .Sell => findLevelQueue false loc.price_key book.asks
    match q? with
    | none => none
    | some q => q.find? (fun o => o.id == oid)

/-- `OrderBook::best_bid`: price of the first bid level. -/
def OrderBook.best_bid (book : OrderBook) : Option Price :=
  book.bids.head?.map (·.1)

/-- `OrderBook::best_ask`: price of the first ask level. -/
def OrderBook.best_ask (book : OrderBook) : Option Price :=
  book.asks.head?.map (·.1)

/-- `OrderBook::spread`. -/
def OrderBook.spread (book : OrderBook) : Option (Price × Price) :=
  match book.best_bid, book.best_ask with
  | some b, some a => some (b, a)
  | _, _ => none

/-- Inner loop of `simulate_market_buy` over one ask level's queue, carrying
`(remaining_quote, total_base)`; a `?` failure of the price arithmetic aborts
the whole simulation. -/
def simBuyQueue (rq tb : Nat) : List Order → Option (Nat × Nat)
  | [] => some (rq, tb)
  | o :: rest =>
    if o.is_active = false ∨ rq = 0 then simBuyQueue rq tb rest
    else
      match o.price.quote_amount o.remaining_amount with
      | none => none
      | some oqv =>
        if rq ≥ oqv then
          simBuyQueue (rq - oqv) (satAdd tb o.remaining_amount) rest
        else
          match o.price.base_amount rq with
          | none => none
          | some b => simBuyQueue 0 (satAdd tb b) rest

/-- Level loop of `simulate_market_buy`. -/
def simBuyLevels (rq tb : Nat) : List (Price × List Order) → Option (Nat × Nat)
  | [] => some (rq, tb)
  | (_, q) :: rest =>
    if rq = 0 then some (rq, tb)
    else
      match simBuyQueue rq tb q with
      | none => none
      | some (rq', tb') => simBuyLevels rq' tb' rest

/-- `OrderBook::simulate_market_buy`: walk the asks, apply the fee to the base
output, average price is `spent_quote / total_base`. -/
def OrderBook.simulate_market_buy (book : OrderBook) (input_quote : Nat)
    (config : DexConfig) : Option (Nat × Price) :=
  match simBuyLevels input_quote 0 book.asks with
  | none => none
  | some (rq, tb) =>
    if tb = 0 then none
    else
      let fee := config.calculate_fee (toU128Sat tb)
      some (tb - fee, { numerator := input_quote - rq, denominator := tb })

/-- Inner loop of `simulate_market_sell` over one bid level's queue, carrying
`(remaining_base, total_quote)`. -/
def simSellQueue (rb tq : Nat) : List Order → Option (Nat × Nat)
  | [] => some (rb, tq)
  | o :: rest =>
    if o.is_active = false ∨ rb = 0 then simSellQueue rb tq rest
    else
      if rb ≥ o.remaining_amount then
        match o.price.quote_amount o.remaining_amount with
        | none => none
        | some qv => simSellQueue (rb - o.remaining_amount) (satAdd tq qv) rest
      else
        match o.price.quote_amount rb with
        | none => none
        | some qv => simSellQueue 0 (satAdd tq qv) rest

/-- Level loop of `simulate_market_sell`. -/
def simSellLevels (rb tq : Nat) : List (Price × List Order) → Option (Nat × Nat)
  | [] => some (rb, tq)
  | (_, q) :: rest =>
    if rb = 0 then some (rb, tq)
    else
      match simSellQueue rb tq q with
      | none => none
      | some (rb', tq') => simSellLevels rb' tq' rest

/-- `OrderBook::simulate_market_sell`: walk the bids, apply the fee to the
quote output, average price is `total_quote / sold_base`. -/
def OrderBook.simulate_market_sell (book : OrderBook) (input_base : Nat)
    (config : DexConfig) : Option (Nat × Price) :=
  match simSellLevels input_base 0 book.bids with
  | none => none
  | some (rb, tq) =>
    if tq = 0 then none
    else
      let fee := config.calculate_fee (toU128Sat tq)
      some (tq - fee, { numerator := tq, denominator := input_base - rb })

/-- `router.rs`: one hop of a route. -/
structure RouteHop where
  pair : Pair
  token_in : Nat
  token_out : Nat
deriving DecidableEq, Repr

/-- `router.rs`: a route. -/
structure Route where
  hops : List RouteHop
deriving DecidableEq, Repr

/-- `Route::len`. -/
def Route.len (r : Route) : Nat := r.hops.length

/-- `router.rs`: a swap quote. -/
structure Quote where
  token_in : Nat
  token_out : Nat
  amount_in : Nat
  amount_out : Nat
  route : Route
  price_impact : Nat
  total_fee : Nat
deriving DecidableEq, Repr

/-- `router.rs`: the token graph. Neighbor sets and hash maps are association
lists in insertion order (`HashSet`/`HashMap` iteration order is arbitrary in
the source; this model fixes insertion order). -/
structure Router where
  graph : List (Nat × List Nat)
  pairs : List ((Nat × Nat) × Pair)
deriving Repr

/-- `Router::new`. -/
def Router.new : Router := { graph := [], pairs := [] }

/-- `HashSet` insert into the adjacency entry of `k` (`entry(k).or_insert_with(HashSet::new).insert(v)`). -/
def addEdge (k v : Nat) : List (Nat × List Nat) → List (Nat × List Nat)
  | [] => [(k, [v])]
  | (t, ns) :: rest =>
    if t = k then (t, if ns.contains v then ns else ns ++ [v]) :: rest
    else (t, ns) :: addEdge k v rest

/-- `HashMap::insert` on the router's pair table. -/
def pairsInsert (k : Nat × Nat) (v : Pair) :
    List ((Nat × Nat) × Pair) → List ((Nat × Nat) × Pair)
  | [] => [(k, v)]
  | (k', v') :: rest =>
    if k' = k then (k', v) :: rest else (k', v') :: pairsInsert k v rest

/-- `Router::add_pair`: undirected edges plus the pair stored under both keys. -/
def Router.add_pair (r : Router) (p : Pair) : Router :=
  { graph := addEdge p.quote p.base (addEdge p.base p.quote r.graph),
    pairs := pairsInsert (p.quote, p.base) p (pairsInsert (p.base, p.quote) p r.pairs) }

/-- The order books of the pool manager, keyed by `PairId`. -/
abbrev Books := List ((Nat × Nat) × OrderBook)

/-- `Router::path_to_route`: turn a token path into hops, failing when a hop
has no pair or no order book. -/
def Router.path_to_route (r : Router) (path : List Nat) (books : Books) :
    Option Route :=
  if path.length < 2 then none
  else
    let rec hopsOf : List Nat → Option (List RouteHop)
      | a :: b :: rest =>
        match List.lookup (a, b) r.pairs with
        | none => none
        | some pair =>
          match List.lookup pair.id books with
          | none => none
          | some _ =>
            match hopsOf (b :: rest) with
            | none => none
            | some hs => some ({ pair := pair, token_in := a, token_out := b } :: hs)
      | _ => some []
    match hopsOf path with
    | none => none
    | some hs => some { hops := hs }

/-- One step of the BFS work-queue loop of `Router::find_routes`. The loop of
the source terminates because enqueued paths are simple; the model carries
explicit fuel that `find_routes` instantiates generously. -/
def Router.bfs (r : Router) (token_out : Nat) (max_hops : Nat) (books : Books) :
    Nat → List (Nat × List Nat) → List Route → List Route
  | 0, _, acc => acc
  | _ + 1, [], acc => acc
  | fuel + 1, (current, path) :: queue, acc =>
    if path.length > max_hops + 1 then r.bfs token_out max_hops books fuel queue acc
    else if current = token_out ∧ path.length > 1 then
      let acc' := match r.path_to_route path books with
        | none => acc
        | some route => acc ++ [route]
      r.bfs token_out max_hops books fuel queue acc'
    else
      let neighbors := (List.lookup current r.graph).getD []
      let pushes := (neighbors.filter (fun n => path.contains n = false)).map
        (fun n => (n, path ++ [n]))
      r.bfs token_out max_hops books fuel (queue ++ pushes) acc

/-- `Router::find_routes`: BFS enumeration of simple paths, sorted by hop
count (stable sort, as `sort_by_key`). -/
def Router.find_routes (r : Router) (token_in token_out : Nat) (max_hops : Nat)
    (books : Books) : List Route :=
  let fuel := (r.graph.length + 2) ^ (max_hops + 3)
  let routes := r.bfs token_out max_hops books fuel [(token_in, [token_in])] []
  routes.mergeSort (fun a b => a.len ≤ b.len)

/-- `pool_manager.rs` errors. -/
inductive PoolError where
  | PairAlreadyExists
  | PairNotFound
  | InvalidPair
  | InvalidAmount
  | NoRouteFound
  | InsufficientLiquidity
  | SlippageExceeded
  | OrderError (e : OrderError)
deriving DecidableEq, Repr

/-- `pool_manager.rs`: result of a swap. -/
structure SwapResult where
  amount_in : Nat
  amount_out : Nat
  route : Route
  trades : List TradeResult
deriving Repr

/-- `pool_manager.rs`: the pool manager. -/
structure PoolManager where
  config : DexConfig
  orderbooks : Books
  token_pairs : List (Nat × List (Nat × Nat))
  router : Router
deriving Repr

/-- `PoolManager::with_config`. -/
def PoolManager.with_config (config : DexConfig) : PoolManager :=
  { config := config, orderbooks := [], token_pairs := [], router := Router.new }

/-- `HashSet<PairId>` insert into the token index. -/
def tokenPairsInsert (t : Nat) (pid : Nat × Nat) :
    List (Nat × List (Nat × Nat)) → List (Nat × List (Nat × Nat))
  | [] => [(t, [pid])]
  | (t', ps) :: rest =>
    if t' = t then (t', if ps.contains pid then ps else ps ++ [pid]) :: rest
    else (t', ps) :: tokenPairsInsert t pid rest

/-- `HashMap::insert` of a book under its pair id. -/
def booksInsert (k : Nat × Nat) (v : OrderBook) : Books → Books
  | [] => [(k, v)]
  | (k', v') :: rest =>
    if k' = k then (k', v) :: rest else (k', v') :: booksInsert k v rest

/-- `PoolManager::create_pair`. -/
def PoolManager.create_pair (pm : PoolManager) (base quote : Nat) :
    Except PoolError Pair × PoolManager :=
  if base = quote then (.error .InvalidPair, pm)
  else
    let pair : Pair := { base := base, quote := quote }
    let pid := pair.id
    if (List.lookup pid pm.orderbooks).isSome then (.error .PairAlreadyExists, pm)
    else
      (.ok pair,
       { pm with
         orderbooks := booksInsert pid (OrderBook.new pair) pm.orderbooks,
         token_pairs := tokenPairsInsert quote pid (tokenPairsInsert base pid pm.token_pairs),
         router := pm.router.add_pair pair })

/-- `PoolManager::place_limit_order`: dispatch to the book of `Pair::new(base, quote)`. -/
def PoolManager.place_limit_order (pm : PoolManager) (base quote trader : Nat)
    (side : OrderSide) (price : Price) (amount : Nat) :
    Except PoolError (Nat × TradeResult) × PoolManager :=
  let pid := (Pair.mk base quote).id
  match List.lookup pid pm.orderbooks with
  | none => (.error .PairNotFound, pm)
  | some book =>
    match book.place_limit_order trader side price amount pm.config with
    | (.error e, book') => (.error (.OrderError e), { pm with orderbooks := booksInsert pid book' pm.orderbooks })
    | (.ok res, book') => (.ok res, { pm with orderbooks := booksInsert pid book' pm.orderbooks })

/-- `PoolManager::place_market_order`. -/
def PoolManager.place_market_order (pm : PoolManager) (base quote trader : Nat)
    (side : OrderSide) (amount : Nat) :
    Except PoolError TradeResult × PoolManager :=
  let pid := (Pair.mk base quote).id
  match List.lookup pid pm.orderbooks with
  | none => (.error .PairNotFound, pm)
  | some book =>
    match book.place_market_order trader side amount pm.config with
    | (.error e, book') => (.error (.OrderError e), { pm with orderbooks := booksInsert pid book' pm.orderbooks })
    | (.ok res, book') => (.ok res, { pm with orderbooks := booksInsert pid book' pm.orderbooks })

/-- `PoolManager::cancel_order`. -/
def PoolManager.cancel_order (pm : PoolManager) (base quote : Nat) (oid : Nat) :
    Except PoolError Unit × PoolManager :=
  let pid := (Pair.mk base quote).id
  match List.lookup pid pm.orderbooks with
  | none => (.error .PairNotFound, pm)
  | some book =>
    match book.cancel_order oid with
    | (.error e, book') => (.error (.OrderError e), { pm with orderbooks := booksInsert pid book' pm.orderbooks })
    | (.ok _, book') => (.ok (), { pm with orderbooks := booksInsert pid book' pm.orderbooks })

/-- `PoolManager::calculate_price_impact`: mid numerator/denominator are the
saturating sums of the best bid's and ask's components, the execution price
comes from re-simulating the trade, and the impact is
`exec.numerator * 10000 / mid_numerator` saturating-minus `10000`
(checked division, zero on a zero divisor). -/
def PoolManager.calculate_price_impact (pm : PoolManager) (book : OrderBook)
    (token_in : Nat) (amount_in : Nat) : Nat :=
  match book.spread with
  | none => 0
  | some (best_bid, best_ask) =>
    let mid_numerator := satAdd best_bid.numerator best_ask.numerator
    let mid_denominator := satAdd best_bid.denominator best_ask.denominator
    if mid_denominator = 0 then 0
    else
      let sim := if book.pair.base = token_in then
          book.simulate_market_sell amount_in pm.config
        else
          book.simulate_market_buy amount_in pm.config
      match sim with
      | none => 0
      | some (_, exec_price) =>
        let impact_bps :=
          if mid_numerator = 0 then 0
          else satMul exec_price.numerator 10000 / mid_numerator
        impact_bps - 10000

/-- `PoolManager::get_direct_quote`: find the book by the direction-independent
pair id, choose sell or buy by comparing the book's base to `token_in`. -/
def PoolManager.get_direct_quote (pm : PoolManager) (token_in token_out : Nat)
    (amount_in : Nat) : Option Quote :=
  let pid := PairId.from_tokens token_in token_out
  match List.lookup pid pm.orderbooks with
  | none => none
  | some book =>
    let sim := if book.pair.base = token_in then
        book.simulate_market_sell amount_in pm.config
      else
        book.simulate_market_buy amount_in pm.config
    match sim with
    | none => none
    | some (amount_out, _) =>
      some { token_in := token_in, token_out := token_out,
             amount_in := amount_in, amount_out := amount_out,
             route := { hops := [{ pair := book.pair, token_in := token_in,
                                   token_out := token_out }] },
             price_impact := pm.calculate_price_impact book token_in amount_in,
             total_fee := pm.config.calculate_fee (toU128Sat amount_out) }

/-- `PoolManager::evaluate_route`: simulate hop by hop, accumulating fees on
each hop's output. -/
def PoolManager.evaluate_route (pm : PoolManager) (route : Route)
    (amount_in : Nat) : Option Quote :=
  let rec go (current total_fee : Nat) : List RouteHop → Option (Nat × Nat)
    | [] => some (current, total_fee)
    | hop :: rest =>
      match List.lookup hop.pair.id pm.orderbooks with
      | none => none
      | some book =>
        let sim := if book.pair.base = hop.token_in then
            book.simulate_market_sell current pm.config
          else
            book.simulate_market_buy current pm.config
        match sim with
        | none => none
        | some (amount_out, _) =>
          let hop_fee := pm.config.calculate_fee (toU128Sat amount_out)
          go amount_out (satAdd total_fee hop_fee) rest
  match go amount_in 0 route.hops with
  | none => none
  | some (current, total_fee) =>
    match route.hops.head?, route.hops.getLast? with
    | some first_hop, some last_hop =>
      some { token_in := first_hop.token_in, token_out := last_hop.token_out,
             amount_in := amount_in, amount_out := current,
             route := route, price_impact := 0, total_fee := total_fee }
    | _, _ => none

/-- The best-quote fold of `get_routed_quote` (first strictly greater output wins). -/
def bestQuoteOf (pm : PoolManager) (amount_in : Nat) :
    List Route → Option Quote → Option Quote
  | [], best => best
  | route :: rest, best =>
    match pm.evaluate_route route amount_in with
    | none => bestQuoteOf pm amount_in rest best
    | some q =>
      match best with
      | none => bestQuoteOf pm amount_in rest (some q)
      | some current =>
        if q.amount_out > current.amount_out then
          bestQuoteOf pm amount_in rest (some q)
        else bestQuoteOf pm amount_in rest (some current)

/-- `PoolManager::get_routed_quote`. -/
def PoolManager.get_routed_quote (pm : PoolManager) (token_in token_out : Nat)
    (amount_in : Nat) : Except PoolError Quote :=
  let routes := pm.router.find_routes token_in token_out pm.config.max_routing_hops
    pm.orderbooks
  if routes = [] then .error .NoRouteFound
  else
    match bestQuoteOf pm amount_in routes none with
    | none => .error .InsufficientLiquidity
    | some q => .ok q

/-- `PoolManager::get_quote`. -/
def PoolManager.get_quote (pm : PoolManager) (token_in token_out : Nat)
    (amount_in : Nat) : Except PoolError Quote :=
  if token_in = token_out then .error .InvalidPair
  else if amount_in = 0 then .error .InvalidAmount
  else
    match pm.get_direct_quote token_in token_out amount_in with
    | some q => .ok q
    | none => pm.get_routed_quote token_in token_out amount_in

/-- The hop-execution loop of `execute_swap`: each hop places a real market
order whose output (quote for sells, base for buys, summed saturating over the
fills) feeds the next hop; errors abort with the state mutated so far. -/
def PoolManager.execHops (pm : PoolManager) (trader : Nat) :
    Nat → List TradeResult → List RouteHop →
    Except PoolError (Nat × List TradeResult) × PoolManager
  | current, trades, [] => (.ok (current, trades.reverse), pm)
  | current, trades, hop :: rest =>
    match List.lookup hop.pair.id pm.orderbooks with
    | none => (.error .PairNotFound, pm)
    | some book =>
      let side : OrderSide := if book.pair.base = hop.token_in then .Sell else .Buy
      match book.place_market_order trader side current pm.config with
      | (.error e, book') =>
        (.error (.OrderError e),
         { pm with orderbooks := booksInsert hop.pair.id book' pm.orderbooks })
      | (.ok tr, book') =>
        let output := tr.fills.foldl
          (fun acc f => satAdd acc (match side with
            | .Sell => f.quote_amount
            | .Buy => f.base_amount)) 0
        PoolManager.execHops
          { pm with orderbooks := booksInsert hop.pair.id book' pm.orderbooks }
          trader output (tr :: trades) rest

/-- `PoolManager::execute_swap`: quote first, fail with `SlippageExceeded` when
the quoted output is below `min_amount_out` (leaving all books untouched),
otherwise execute the quoted route hop by hop. -/
def PoolManager.execute_swap (pm : PoolManager) (trader : Nat)
    (token_in token_out : Nat) (amount_in min_amount_out : Nat) :
    Except PoolError SwapResult × PoolManager :=
  match pm.get_quote token_in token_out amount_in with
  | .error e => (.error e, pm)
  | .ok quote =>
    if quote.amount_out < min_amount_out then (.error .SlippageExceeded, pm)
    else
      match pm.execHops trader amount_in [] quote.route.hops with
      | (.error e, pm') => (.error e, pm')
      | (.ok (current, trades), pm') =>
        (.ok { amount_in := amount_in, amount_out := current,
               route := quote.route, trades := trades }, pm')

/-! ### Basic lemmas about the value types and the fill step -/

theorem Order.fill_trader (o : Order) (n : Nat) : (o.fill n).trader = o.trader := rfl

theorem Order.fill_price (o : Order) (n : Nat) : (o.fill n).price = o.price := rfl

theorem mkFill_base (config : DexConfig) (t m : Order) :
    (mkFill config t m).1.base_amount = min t.remaining_amount m.remaining_amount := rfl

theorem mkFill_price (config : DexConfig) (t m : Order) :
    (mkFill config t m).1.price = m.price := rfl

theorem mkFill_maker (config : DexConfig) (t m : Order) :
    (mkFill config t m).1.maker = m.trader := rfl

theorem mkFill_maker_fee (config : DexConfig) (t m : Order) :
    (mkFill config t m).1.maker_fee = 0 := rfl

theorem mkFill_taker_fee (config : DexConfig) (t m : Order) :
    (mkFill config t m).1.taker_fee
      = config.calculate_fee (toU128Sat (mkFill config t m).1.quote_amount) := rfl

theorem mkFill_taker_remaining (config : DexConfig) (t m : Order) :
    (mkFill config t m).2.1.remaining_amount
      = t.remaining_amount - (mkFill config t m).1.base_amount := rfl

theorem mkFill_maker_remaining (config : DexConfig) (t m : Order) :
    (mkFill config t m).2.2.remaining_amount
      = m.remaining_amount - (mkFill config t m).1.base_amount := rfl

theorem mkFill_taker_trader (config : DexConfig) (t m : Order) :
    (mkFill config t m).2.1.trader = t.trader := rfl

/-- The fee of `calculate_fee` applied to a `u128`-truncated 256-bit amount is
the single-saturation formula on the full amount: truncating to `u128::MAX`
first commutes with the saturating multiplication. -/
theorem calculate_fee_toU128Sat (config : DexConfig) (q : Nat) :
    config.calculate_fee (toU128Sat q)
      = min (q * config.fee_bps) U128MAX / 10000 := by
  unfold DexConfig.calculate_fee toU128Sat satMul128
  rcases Nat.le_total q U128MAX with h | h
  · rw [min_eq_left h]
  · rw [min_eq_right h]
    rcases Nat.eq_zero_or_pos config.fee_bps with hb | hb
    · simp [hb]
    · have h1 : U128MAX ≤ U128MAX * config.fee_bps := Nat.le_mul_of_pos_right _ hb
      have h2 : U128MAX ≤ q * config.fee_bps :=
        le_trans h1 (Nat.mul_le_mul_right _ h)
      rw [min_eq_right h1, min_eq_right h2]

/-! ### Provenance of fills: everything the matching loop emits comes from
`mkFill` applied to the taker and maker as they stand at that moment. -/

/-- Every fill of the queue walk arises from `mkFill`; the taker argument
carries the original taker's trader, the maker was active, and under disabled
self-trading the two traders differ. -/
theorem matchQueue_fills_spec (config : DexConfig) (taker : Order) (vol : Nat)
    (q : List Order) :
    ∀ f ∈ (matchQueue config taker vol q).fills,
      ∃ t m, t.trader = taker.trader ∧ m.is_active = true ∧
        (config.allow_self_trade = false → t.trader ≠ m.trader) ∧
        f = (mkFill config t m).1 := by
  induction q generalizing taker vol with
  | nil => simp [matchQueue]
  | cons m rest ih =>
    intro f hf
    unfold matchQueue at hf
    split_ifs at hf with h0 h1 h2
    · simp at hf
    · exact ih taker vol f hf
    · exact ih taker vol f hf
    · simp only [List.mem_cons] at hf
      rcases hf with hf | hf
      · refine ⟨taker, m, rfl, ?_, ?_, hf⟩
        · cases hma : m.is_active
          · exact absurd hma h1
          · rfl
        · intro hst heq
          exact h2 ⟨hst, heq⟩
      · obtain ⟨t, m', ht, hm, hself, hf⟩ :=
          ih (mkFill config taker m).2.1 (satAdd vol (mkFill config taker m).1.base_amount) f hf
        exact ⟨t, m', ht.trans (mkFill_taker_trader config taker m), hm, hself, hf⟩

/-- The trader of the taker is unchanged by the queue walk. -/
theorem matchQueue_taker_trader (config : DexConfig) (taker : Order) (vol : Nat)
    (q : List Order) :
    (matchQueue config taker vol q).taker.trader = taker.trader := by
  induction q generalizing taker vol with
  | nil => rfl
  | cons o os ihq =>
    unfold matchQueue
    split_ifs
    · rfl
    · exact ihq taker vol
    · exact ihq taker vol
    · exact (ihq (mkFill config taker o).2.1
        (satAdd vol (mkFill config taker o).1.base_amount)).trans
        (mkFill_taker_trader config taker o)

/-- Lifting `matchQueue_fills_spec` through the level loop. -/
theorem matchLevels_fills_spec (config : DexConfig) (taker : Order) (vol : Nat)
    (levels : List (Price × List Order)) :
    ∀ f ∈ (matchLevels config taker vol levels).fills,
      ∃ t m, t.trader = taker.trader ∧ m.is_active = true ∧
        (config.allow_self_trade = false → t.trader ≠ m.trader) ∧
        f = (mkFill config t m).1 := by
  induction levels generalizing taker vol with
  | nil => simp [matchLevels]
  | cons lvl rest ih =>
    intro f hf
    obtain ⟨p, q⟩ := lvl
    unfold matchLevels at hf
    split_ifs at hf with h0 h1
    · simp at hf
    · simp at hf
    · simp only [List.mem_append] at hf
      rcases hf with hf | hf
      · exact matchQueue_fills_spec config taker vol q f hf
      · obtain ⟨t, m', ht, hm, hself, hf⟩ :=
          ih (matchQueue config taker vol q).taker (matchQueue config taker vol q).volume f hf
        exact ⟨t, m', ht.trans (matchQueue_taker_trader config taker vol q), hm, hself, hf⟩

/-- Fill provenance for `place_limit_order`. -/
theorem place_limit_order_fills_spec (book : OrderBook) (trader : Nat)
    (side : OrderSide) (price : Price) (amount : Nat) (config : DexConfig)
    (oid : Nat) (tr : TradeResult) (book' : OrderBook)
    (h : book.place_limit_order trader side price amount config = (.ok (oid, tr), book')) :
    ∀ f ∈ tr.fills,
      ∃ t m, t.trader = trader ∧ m.is_active = true ∧
        (config.allow_self_trade = false → t.trader ≠ m.trader) ∧
        f = (mkFill config t m).1 := by
  unfold OrderBook.place_limit_order at h
  split_ifs at h
  · simp at h
  · simp only [Prod.mk.injEq, Except.ok.injEq] at h
    obtain ⟨⟨-, htr⟩, -⟩ := h
    subst htr
    intro f hf
    unfold OrderBook.match_order at hf
    rcases side with _ | _ <;>
      simpa using matchLevels_fills_spec config _ _ _ f hf

/-- Fill provenance for `place_market_order`. -/
theorem place_market_order_fills_spec (book : OrderBook) (trader : Nat)
    (side : OrderSide) (amount : Nat) (config : DexConfig)
    (tr : TradeResult) (book' : OrderBook)
    (h : book.place_market_order trader side amount config = (.ok tr, book')) :
    ∀ f ∈ tr.fills,
      ∃ t m, t.trader = trader ∧ m.is_active = true ∧
        (config.allow_self_trade = false → t.trader ≠ m.trader) ∧
        f = (mkFill config t m).1 := by
  unfold OrderBook.place_market_order at h
  split_ifs at h
  · simp at h
  · simp only [Prod.mk.injEq, Except.ok.injEq] at h
    obtain ⟨htr, -⟩ := h
    subst htr
    intro f hf
    unfold OrderBook.match_order at hf
    rcases side with _ | _ <;>
      simpa using matchLevels_fills_spec config _ _ _ f hf

/-! ### Shared concrete fixtures for witnesses -/

/-- An empty book over the pair (0, 1). -/
def bk0 : OrderBook := OrderBook.new ⟨0, 1⟩

/-- Book after trader 11 rests Sell 500 @ 100. -/
def bkAsk : OrderBook :=
  (bk0.place_limit_order 11 .Sell ⟨100, 1⟩ 500 DexConfig.default).2

/-- The fill produced by trader 13 market-buying 500 against `bkAsk`. -/
def fillAsk : Fill :=
  { maker_order_id := 1, maker := 11, base_amount := 500, quote_amount := 50000,
    price := ⟨100, 1⟩, taker_fee := 150, maker_fee := 0 }

/-- The trade result of that market buy. -/
def trAsk : TradeResult :=
  { taker_order_id := 2, fills := [fillAsk], remaining_amount := 0,
    fully_filled := true }

/-- The book after that market buy. -/
def bkAskAfter : OrderBook :=
  { pair := ⟨0, 1⟩, bids := [], asks := [], orders := [], next_order_id := 3,
    total_volume := 500 }

/-! ### C2: conservation of each fill -/

/-- C2. In every TradeResult produced by place_limit_order or
place_market_order, each Fill arises from the single fill step `mkFill`
applied to the taker and maker as they stood immediately before that fill,
and `mkFill` takes exactly the minimum of the two remaining amounts,
decreases both remaining amounts by exactly that base amount, and prices the
fill at the maker's price. -/
theorem fill_conservation :
    (∀ (config : DexConfig) (t m : Order),
      (mkFill config t m).1.base_amount = min t.remaining_amount m.remaining_amount ∧
      (mkFill config t m).2.1.remaining_amount + (mkFill config t m).1.base_amount
        = t.remaining_amount ∧
      (mkFill config t m).2.2.remaining_amount + (mkFill config t m).1.base_amount
        = m.remaining_amount ∧
      (mkFill config t m).1.price = m.price) ∧
    (∀ (book : OrderBook) (trader : Nat) (side : OrderSide) (price : Price)
       (amount : Nat) (config : DexConfig) (oid : Nat) (tr : TradeResult)
       (book' : OrderBook),
      book.place_limit_order trader side price amount config = (.ok (oid, tr), book') →
      ∀ f ∈ tr.fills, ∃ t m, f = (mkFill config t m).1) ∧
    (∀ (book : OrderBook) (trader : Nat) (side : OrderSide) (amount : Nat)
       (config : DexConfig) (tr : TradeResult) (book' : OrderBook),
      book.place_market_order trader side amount config = (.ok tr, book') →
      ∀ f ∈ tr.fills, ∃ t m, f = (mkFill config t m).1) := by
  refine ⟨fun config t m => ⟨rfl, ?_, ?_, rfl⟩, ?_, ?_⟩
  · rw [mkFill_taker_remaining, mkFill_base]
    have := Nat.min_le_left t.remaining_amount m.remaining_amount
    omega
  · rw [mkFill_maker_remaining, mkFill_base]
    have := Nat.min_le_right t.remaining_amount m.remaining_amount
    omega
  · intro book trader side price amount config oid tr book' h f hf
    obtain ⟨t, m, -, -, -, hfm⟩ :=
      place_limit_order_fills_spec book trader side price amount config oid tr book' h f hf
    exact ⟨t, m, hfm⟩
  · intro book trader side amount config tr book' h f hf
    obtain ⟨t, m, -, -, -, hfm⟩ :=
      place_market_order_fills_spec book trader side amount config tr book' h f hf
    exact ⟨t, m, hfm⟩

/-- Witness for C2 at the concrete market buy against `bkAsk`. -/
theorem fill_conservation_witness :
    ∃ t m, fillAsk = (mkFill DexConfig.default t m).1 :=
  fill_conservation.2.2 bkAsk 13 .Buy 500 DexConfig.default trAsk bkAskAfter
    (by rfl) fillAsk (by simp [trAsk])

/-! ### C4: self-trade prevention -/

/-- C4. With `allow_self_trade = false`, no fill of any matching operation has
a maker address equal to the taker's trader address; a resting active maker
owned by the taker is skipped without being filled or cancelled, stays in its
queue, and the walk continues with the rest of the queue. -/
theorem self_trade_prevention :
    (∀ (book : OrderBook) (trader : Nat) (side : OrderSide) (price : Price)
       (amount : Nat) (config : DexConfig) (oid : Nat) (tr : TradeResult)
       (book' : OrderBook),
      config.allow_self_trade = false →
      book.place_limit_order trader side price amount config = (.ok (oid, tr), book') →
      ∀ f ∈ tr.fills, f.maker ≠ trader) ∧
    (∀ (book : OrderBook) (trader : Nat) (side : OrderSide) (amount : Nat)
       (config : DexConfig) (tr : TradeResult) (book' : OrderBook),
      config.allow_self_trade = false →
      book.place_market_order trader side amount config = (.ok tr, book') →
      ∀ f ∈ tr.fills, f.maker ≠ trader) ∧
    (∀ (config : DexConfig) (taker : Order) (vol : Nat) (m : Order)
       (rest : List Order),
      config.allow_self_trade = false → m.is_active = true →
      taker.trader = m.trader → taker.remaining_amount ≠ 0 →
      matchQueue config taker vol (m :: rest)
        = ⟨(matchQueue config taker vol rest).taker,
           m :: (matchQueue config taker vol rest).queue,
           (matchQueue config taker vol rest).fills,
           (matchQueue config taker vol rest).removed,
           (matchQueue config taker vol rest).volume⟩) := by
  refine ⟨?_, ?_, ?_⟩
  · intro book trader side price amount config oid tr book' hst h f hf
    obtain ⟨t, m, ht, -, hself, hfm⟩ :=
      place_limit_order_fills_spec book trader side price amount config oid tr book' h f hf
    have : f.maker = m.trader := by rw [hfm]; rfl
    rw [this]
    intro hmt
    exact hself hst (by rw [ht, hmt])
  · intro book trader side amount config tr book' hst h f hf
    obtain ⟨t, m, ht, -, hself, hfm⟩ :=
      place_market_order_fills_spec book trader side amount config tr book' h f hf
    have : f.maker = m.trader := by rw [hfm]; rfl
    rw [this]
    intro hmt
    exact hself hst (by rw [ht, hmt])
  · intro config taker vol m rest hst hm htr hrem
    conv_lhs => rw [matchQueue]
    rw [if_neg hrem, if_neg (by simp [hm]), if_pos ⟨hst, htr⟩]

/-- Witness for C4 at the concrete market buy against `bkAsk` (maker 11,
taker 13, default config with self-trading disallowed). -/
theorem self_trade_prevention_witness :
    ∀ f ∈ trAsk.fills, f.maker ≠ 13 :=
  self_trade_prevention.2.1 bkAsk 13 .Buy 500 DexConfig.default trAsk bkAskAfter
    rfl (by rfl)

/-! ### C9: fee recording -/

/-- Book after trader 11 rests Sell 1 @ 2^130 (a fill whose quote amount
overflows `u128`). -/
def bkBigAsk : OrderBook :=
  (bk0.place_limit_order 11 .Sell ⟨2 ^ 130, 1⟩ 1 DexConfig.default).2

/-- The fill produced by trader 13 market-buying 1 against `bkBigAsk`. -/
def fillBig : Fill :=
  { maker_order_id := 1, maker := 11, base_amount := 1,
    quote_amount := 2 ^ 130, price := ⟨2 ^ 130, 1⟩,
    taker_fee := (2 ^ 128 - 1) / 10000, maker_fee := 0 }

/-- The trade result of that market buy. -/
def trBig : TradeResult :=
  { taker_order_id := 2, fills := [fillBig], remaining_amount := 0,
    fully_filled := true }

/-- The book after that market buy. -/
def bkBigAfter : OrderBook :=
  { pair := ⟨0, 1⟩, bids := [], asks := [], orders := [], next_order_id := 3,
    total_volume := 1 }

/-- C9. For every fill emitted by the matching loop, with any 256-bit fill
quote amount, the recorded taker fee is the `u128`-saturating fee formula
`saturating(fill_quote * fee_bps) / 10000` applied to the fill's quote amount
(the `u128` truncation of the source commutes with the saturation,
`calculate_fee_toU128Sat`), and the recorded maker fee is zero. -/
theorem taker_fee_formula :
    (∀ (book : OrderBook) (trader : Nat) (side : OrderSide) (price : Price)
       (amount : Nat) (config : DexConfig) (oid : Nat) (tr : TradeResult)
       (book' : OrderBook),
      book.place_limit_order trader side price amount config = (.ok (oid, tr), book') →
      ∀ f ∈ tr.fills,
        f.taker_fee = min (f.quote_amount * config.fee_bps) U128MAX / 10000 ∧
        f.maker_fee = 0) ∧
    (∀ (book : OrderBook) (trader : Nat) (side : OrderSide) (amount : Nat)
       (config : DexConfig) (tr : TradeResult) (book' : OrderBook),
      book.place_market_order trader side amount config = (.ok tr, book') →
      ∀ f ∈ tr.fills,
        f.taker_fee = min (f.quote_amount * config.fee_bps) U128MAX / 10000 ∧
        f.maker_fee = 0) := by
  have key : ∀ (config : DexConfig) (t m : Order) (f : Fill),
      f = (mkFill config t m).1 →
      f.taker_fee = min (f.quote_amount * config.fee_bps) U128MAX / 10000 ∧
      f.maker_fee = 0 := by
    intro config t m f hfm
    subst hfm
    constructor
    · rw [mkFill_taker_fee, calculate_fee_toU128Sat]
    · rfl
  refine ⟨?_, ?_⟩
  · intro book trader side price amount config oid tr book' h f hf
    obtain ⟨t, m, -, -, -, hfm⟩ :=
      place_limit_order_fills_spec book trader side price amount config oid tr book' h f hf
    exact key config t m f hfm
  · intro book trader side amount config tr book' h f hf
    obtain ⟨t, m, -, -, -, hfm⟩ :=
      place_market_order_fills_spec book trader side amount config tr book' h f hf
    exact key config t m f hfm

/-- Witness for C9 at a concrete fill whose quote amount `2^130` exceeds
`u128::MAX`. -/
theorem taker_fee_formula_witness :
    ∀ f ∈ trBig.fills,
      f.taker_fee = min (f.quote_amount * DexConfig.default.fee_bps) U128MAX / 10000 ∧
      f.maker_fee = 0 :=
  taker_fee_formula.2 bkBigAsk 13 .Buy 1 DexConfig.default trBig bkBigAfter (by rfl)

/-! ### C10: price comparison by cross-multiplied value -/

/-- Book holding two value-equal but representationally distinct buy prices
(1/2 placed by trader 3, then 2/4 placed by trader 4). -/
def bkTwoReps : OrderBook :=
  ((bk0.place_limit_order 3 .Buy ⟨1, 2⟩ 5 DexConfig.default).2.place_limit_order
    4 .Buy ⟨2, 4⟩ 5 DexConfig.default).2

/-- C10. `cmp_value` orders prices by cross-multiplied rational value, so two
Price values with equal cross products compare Equal even though structural
equality distinguishes them; consequently limit orders at value-equal but
representationally distinct prices (1/2 and 2/4) land in a single price
level keyed by the first-inserted representation and share one FIFO queue. -/
theorem price_cmp_by_value :
    (∀ a b c d : Nat, a * d = c * b →
      Price.cmp_value ⟨a, b⟩ ⟨c, d⟩ = Ordering.eq) ∧
    (Price.mk 1 2 ≠ Price.mk 2 4) ∧
    (bkTwoReps.bids.map Prod.fst = [⟨1, 2⟩] ∧
     bkTwoReps.bids.map (fun lvl => lvl.2.map (·.id)) = [[1, 2]]) := by
  refine ⟨?_, by decide, by decide, by decide⟩
  intro a b c d h
  simp [Price.cmp_value, satMul, natCmp, h]

/-- Witness for C10: the two representations of one half compare Equal. -/
theorem price_cmp_by_value_witness :
    Price.cmp_value ⟨1, 2⟩ ⟨2, 4⟩ = Ordering.eq :=
  price_cmp_by_value.1 1 2 2 4 (by decide)

/-! ### C3: price-time priority -/

/-- Book with makers A (trader 11, order 1) and B (trader 12, order 2) each
resting Sell 500 @ 100, A placed first. -/
def bkPTP : OrderBook :=
  (bkAsk.place_limit_order 12 .Sell ⟨100, 1⟩ 500 DexConfig.default).2

/-- The market buy of 500 by taker C (trader 13) against `bkPTP`. -/
def mPTP : Except OrderError TradeResult × OrderBook :=
  bkPTP.place_market_order 13 .Buy 500 DexConfig.default

/-- B's untouched resting order after the scenario. -/
def orderB : Order :=
  { id := 2, trader := 12, side := .Sell, order_type := .Limit,
    price := ⟨100, 1⟩, original_amount := 500, remaining_amount := 500,
    status := .Open, timestamp := 0 }

/-- C3. FIFO price-time priority: an order joining an existing price level is
appended at the tail of that level's queue (so earlier-inserted orders occupy
earlier positions), the fills of a level walk follow the queue order (the
emitted maker ids are an order-preserving sublist of the queue's ids), and in
the concrete scenario — makers A then B each resting Sell 500 @ 100 and taker
C market-buying 500 — the result is exactly one fill of 500 against A, with A
removed and B untouched in the book. -/
theorem price_time_priority :
    (∀ (is_bid : Bool) (o : Order) (levels : List (Price × List Order))
       (q : List Order),
      findLevelQueue is_bid o.price levels = some q →
      ∃ i p, levels.get? i = some (p, q) ∧
        insertIntoLevels is_bid o levels = levels.set i (p, q ++ [o])) ∧
    (∀ (config : DexConfig) (taker : Order) (vol : Nat) (q : List Order),
      List.Sublist ((matchQueue config taker vol q).fills.map (·.maker_order_id))
        (q.map (·.id))) ∧
    (mPTP.1 = .ok { taker_order_id := 3, fills := [fillAsk],
                    remaining_amount := 0, fully_filled := true } ∧
     mPTP.2.get_order 1 = none ∧
     mPTP.2.get_order 2 = some orderB) := by
  refine ⟨?_, ?_, by rfl, by rfl, by rfl⟩
  · intro is_bid o levels
    induction levels with
    | nil => intro q h; simp [findLevelQueue] at h
    | cons lvl rest ih =>
      intro q h
      obtain ⟨p0, q0⟩ := lvl
      unfold findLevelQueue at h
      unfold insertIntoLevels
      split at h
      · exact absurd h (by simp)
      · simp only [Option.some.injEq] at h
        subst h
        exact ⟨0, p0, rfl, rfl⟩
      · obtain ⟨i, p, hget, hins⟩ := ih q h
        exact ⟨i + 1, p, by simpa using hget, by simp [hins]⟩
  · intro config taker vol q
    induction q generalizing taker vol with
    | nil => exact List.nil_sublist _
    | cons m rest ih =>
      unfold matchQueue
      split_ifs
      · exact List.nil_sublist _
      · exact List.Sublist.cons m.id (ih taker vol)
      · exact List.Sublist.cons m.id (ih taker vol)
      · exact List.Sublist.cons₂ m.id
          (ih (mkFill config taker m).2.1
            (satAdd vol (mkFill config taker m).1.base_amount))

/-- Witness for C3: inserting a second sell at 100 into the book holding A's
order appends it at the tail of A's level. -/
theorem price_time_priority_witness :
    ∃ i p, bkAsk.asks.get? i = some (p, [(Order.new_limit 1 11 .Sell ⟨100, 1⟩ 500)]) ∧
      insertIntoLevels false (Order.new_limit 2 12 .Sell ⟨100, 1⟩ 500) bkAsk.asks
        = bkAsk.asks.set i (p, [(Order.new_limit 1 11 .Sell ⟨100, 1⟩ 500)]
            ++ [Order.new_limit 2 12 .Sell ⟨100, 1⟩ 500]) :=
  price_time_priority.1 false (Order.new_limit 2 12 .Sell ⟨100, 1⟩ 500)
    bkAsk.asks [(Order.new_limit 1 11 .Sell ⟨100, 1⟩ 500)] (by decide)

/-! ### C5: slippage guard -/

/-- C5. If `get_quote` succeeds inside `execute_swap` but the quoted output is
strictly below `min_amount_out`, `execute_swap` fails with SlippageExceeded
and returns the pool manager — hence every orderbook, index, id counter and
volume — exactly as it was. -/
theorem slippage_guard (pm : PoolManager) (trader token_in token_out : Nat)
    (amount_in min_amount_out : Nat) (q : Quote)
    (hq : pm.get_quote token_in token_out amount_in = .ok q)
    (hlt : q.amount_out < min_amount_out) :
    pm.execute_swap trader token_in token_out amount_in min_amount_out
      = (.error .SlippageExceeded, pm) := by
  unfold PoolManager.execute_swap
  rw [hq]
  simp only [hlt, if_pos]

/-- Pool manager with one pair (0, 1), a resting bid 1 @ 100 (trader 21) and a
resting ask 1 @ 300 (trader 22). -/
def pmQuoted : PoolManager :=
  ((((PoolManager.with_config DexConfig.default).create_pair 0 1).2.place_limit_order
      0 1 21 .Buy ⟨100, 1⟩ 1).2.place_limit_order 0 1 22 .Sell ⟨300, 1⟩ 1).2

/-- The quote `pmQuoted` produces for swapping 300 of token 1 into token 0. -/
def quoteSmall : Quote :=
  { token_in := 1, token_out := 0, amount_in := 300, amount_out := 1,
    route := { hops := [{ pair := ⟨0, 1⟩, token_in := 1, token_out := 0 }] },
    price_impact := 0, total_fee := 0 }

/-- Witness for C5 at `pmQuoted` with `min_out` far above the quoted output. -/
theorem slippage_guard_witness :
    pmQuoted.execute_swap 30 1 0 300 100000 = (.error .SlippageExceeded, pmQuoted) :=
  slippage_guard pmQuoted 30 1 0 300 100000 quoteSmall (by rfl) (by decide)

/-! ### C8: price impact of direct quotes -/

/-- Exact rational value of a price. -/
def Price.ratVal (p : Price) : ℚ := (p.numerator : ℚ) / (p.denominator : ℚ)

/-- Modelled from the spec: `price_impact_bps = |exec_price − mid_price| /
mid_price · 10000` where `mid_price` is the mid price (average) of the best
bid and best ask, in exact rational arithmetic. -/
def specPriceImpactBps (bid ask exec : Price) : ℚ :=
  let mid := (bid.ratVal + ask.ratVal) / 2
  |exec.ratVal - mid| / mid * 10000

/-- The book inside `pmQuoted`: bid 1 @ 100, ask 1 @ 300. -/
def bkImpact : OrderBook :=
  ((bk0.place_limit_order 21 .Buy ⟨100, 1⟩ 1 DexConfig.default).2.place_limit_order
    22 .Sell ⟨300, 1⟩ 1 DexConfig.default).2

/-- Counterexample to C8: on the book with best bid 100 and best ask 300, a
direct quote for 300 quote-in executes entirely at 300, so the spec formula
gives `|300 − 200| / 200 · 10000 = 5000` basis points, but the returned
quote's `price_impact` is 0 (the code divides the execution price's raw
numerator by the sum of the best quotes' numerators and clamps at zero). -/
theorem price_impact_counterexample :
    pmQuoted.get_quote 1 0 300 = .ok quoteSmall ∧
    List.lookup (PairId.from_tokens 1 0) pmQuoted.orderbooks = some bkImpact ∧
    bkImpact.spread = some (⟨100, 1⟩, ⟨300, 1⟩) ∧
    bkImpact.simulate_market_buy 300 DexConfig.default = some (1, ⟨300, 1⟩) ∧
    quoteSmall.price_impact = 0 ∧
    specPriceImpactBps ⟨100, 1⟩ ⟨300, 1⟩ ⟨300, 1⟩ = 5000 ∧
    (0 : ℚ) ≠ 5000 := by
  refine ⟨by rfl, by rfl, by rfl, by rfl, by rfl, ?_, by norm_num⟩
  norm_num [specPriceImpactBps, Price.ratVal]

/-- C8 as amended: for a direct quote on a book with both a best bid and a
best ask (and no 256-bit saturation in the intermediates), `price_impact` is
`exec_price.numerator · 10000 / (best_bid.numerator + best_ask.numerator)`
truncated-minus `10000`: it is computed from raw numerators only and clamps
negative impacts to zero, not `|exec − mid| / mid · 10000`. -/
theorem price_impact_actual_formula
    (pm : PoolManager) (book : OrderBook) (token_in token_out amount_in : Nat)
    (q : Quote) (bb ba : Price) (out : Nat) (exec : Price)
    (hb : List.lookup (PairId.from_tokens token_in token_out) pm.orderbooks = some book)
    (hq : pm.get_direct_quote token_in token_out amount_in = some q)
    (hsim : (if book.pair.base = token_in then
        book.simulate_market_sell amount_in pm.config
      else book.simulate_market_buy amount_in pm.config) = some (out, exec))
    (hs : book.spread = some (bb, ba))
    (hnum : bb.numerator + ba.numerator ≤ U256MAX)
    (hden : bb.denominator + ba.denominator ≤ U256MAX)
    (hden0 : bb.denominator + ba.denominator ≠ 0)
    (hnum0 : bb.numerator + ba.numerator ≠ 0)
    (hprod : exec.numerator * 10000 ≤ U256MAX) :
    q.price_impact
      = exec.numerator * 10000 / (bb.numerator + ba.numerator) - 10000 := by
  unfold PoolManager.get_direct_quote at hq
  simp only [hb, hsim, Option.some.injEq] at hq
  subst hq
  show pm.calculate_price_impact book token_in amount_in = _
  unfold PoolManager.calculate_price_impact
  rw [hs, hsim]
  have hadd1 : satAdd bb.numerator ba.numerator = bb.numerator + ba.numerator :=
    min_eq_left hnum
  have hadd2 : satAdd bb.denominator ba.denominator
      = bb.denominator + ba.denominator := min_eq_left hden
  show (if satAdd bb.denominator ba.denominator = 0 then 0
        else (if satAdd bb.numerator ba.numerator = 0 then 0
              else satMul exec.numerator 10000 / satAdd bb.numerator ba.numerator)
          - 10000)
      = exec.numerator * 10000 / (bb.numerator + ba.numerator) - 10000
  rw [hadd1, hadd2, if_neg hden0, if_neg hnum0,
    show satMul exec.numerator 10000 = exec.numerator * 10000 from min_eq_left hprod]

/-- Witness for the amended C8 at the concrete quote of `pmQuoted`:
`300 · 10000 / (100 + 300) − 10000` truncates to 0. -/
theorem price_impact_actual_formula_witness :
    quoteSmall.price_impact = 300 * 10000 / (100 + 300) - 10000 :=
  price_impact_actual_formula pmQuoted bkImpact 1 0 300 quoteSmall
    ⟨100, 1⟩ ⟨300, 1⟩ 1 ⟨300, 1⟩ (by rfl) (by rfl) (by rfl) (by rfl)
    (by decide) (by decide) (by decide) (by decide) (by decide)

/-! ### C7: market orders never rest -/

/-- The matchable contribution of one queue: remaining amounts of the orders
the walk will fill (active and not excluded by self-trade prevention). -/
def queueMatchable (config : DexConfig) (trader : Nat) (q : List Order) : Nat :=
  (q.map (fun o =>
    if o.is_active = true ∧ ¬(config.allow_self_trade = false ∧ trader = o.trader)
    then o.remaining_amount else 0)).sum

/-- Price compatibility of the market-order sentinel price of a side. -/
def sentinelCompatible (side : OrderSide) (p : Price) : Bool :=
  match side with
  | .Buy => !(Price.cmp_value ⟨U256MAX, 1⟩ p == Ordering.lt)
  | .Sell => !(Price.cmp_value ⟨1, U256MAX⟩ p == Ordering.gt)

/-- Total opposite-side liquidity matchable by a market order of `trader`: the
matchable contributions of the level prefix the sentinel price can cross. -/
def marketMatchable (config : DexConfig) (trader : Nat) (side : OrderSide)
    (book : OrderBook) : Nat :=
  let levels := match side with | .Buy => book.asks | .Sell => book.bids
  ((levels.takeWhile (fun lvl => sentinelCompatible side lvl.1)).map
    (fun lvl => queueMatchable config trader lvl.2)).sum

theorem new_market_compatible (oid trader : Nat) (side : OrderSide)
    (amount : Nat) (p : Price) :
    priceCompatible (Order.new_market oid trader side amount) p
      = sentinelCompatible side p := by
  cases side <;> rfl

theorem matchQueue_taker_price (config : DexConfig) (taker : Order) (vol : Nat)
    (q : List Order) :
    (matchQueue config taker vol q).taker.price = taker.price := by
  induction q generalizing taker vol with
  | nil => rfl
  | cons o os ihq =>
    unfold matchQueue
    split_ifs
    · rfl
    · exact ihq taker vol
    · exact ihq taker vol
    · exact ihq (mkFill config taker o).2.1
        (satAdd vol (mkFill config taker o).1.base_amount)

theorem matchQueue_taker_side (config : DexConfig) (taker : Order) (vol : Nat)
    (q : List Order) :
    (matchQueue config taker vol q).taker.side = taker.side := by
  induction q generalizing taker vol with
  | nil => rfl
  | cons o os ihq =>
    unfold matchQueue
    split_ifs
    · rfl
    · exact ihq taker vol
    · exact ihq taker vol
    · exact ihq (mkFill config taker o).2.1
        (satAdd vol (mkFill config taker o).1.base_amount)

theorem priceCompatible_congr (t t' : Order) (h1 : t'.price = t.price)
    (h2 : t'.side = t.side) (p : Price) :
    priceCompatible t' p = priceCompatible t p := by
  simp only [priceCompatible, h1, h2]

/-- When the taker's remaining amount covers the whole matchable content of a
queue, the walk consumes exactly that much. -/
theorem matchQueue_consume (config : DexConfig) (taker : Order) (vol : Nat)
    (q : List Order)
    (h : queueMatchable config taker.trader q ≤ taker.remaining_amount) :
    (matchQueue config taker vol q).taker.remaining_amount
      = taker.remaining_amount - queueMatchable config taker.trader q := by
  induction q generalizing taker vol with
  | nil => simp [matchQueue, queueMatchable]
  | cons m rest ih =>
    unfold matchQueue
    split_ifs with h0 h1 h2
    · have hq0 : queueMatchable config taker.trader (m :: rest) = 0 := by omega
      simp [hq0, h0]
    · have hc : queueMatchable config taker.trader (m :: rest)
          = queueMatchable config taker.trader rest := by
        simp [queueMatchable, h1]
      rw [hc] at h ⊢
      exact ih taker vol h
    · have hc : queueMatchable config taker.trader (m :: rest)
          = queueMatchable config taker.trader rest := by
        simp only [queueMatchable, List.map_cons, List.sum_cons,
          if_neg (by tauto : ¬(m.is_active = true ∧
            ¬(config.allow_self_trade = false ∧ taker.trader = m.trader)))]
        omega
      rw [hc] at h ⊢
      exact ih taker vol h
    · have hact : m.is_active = true := by
        cases hma : m.is_active
        · exact absurd hma h1
        · rfl
      have hc : queueMatchable config taker.trader (m :: rest)
          = m.remaining_amount + queueMatchable config taker.trader rest := by
        simp [queueMatchable, hact, h2]
      rw [hc] at h
      have hmin : (mkFill config taker m).1.base_amount = m.remaining_amount := by
        rw [mkFill_base]
        omega
      have hrem : (mkFill config taker m).2.1.remaining_amount
          = taker.remaining_amount - m.remaining_amount := by
        rw [mkFill_taker_remaining, hmin]
      have htr := mkFill_taker_trader config taker m
      have ih' := ih (mkFill config taker m).2.1
        (satAdd vol (mkFill config taker m).1.base_amount)
        (by rw [htr, hrem]; omega)
      rw [htr, hrem] at ih'
      rw [hc, ih']
      omega

/-- When the taker's remaining amount covers the whole matchable content of
the compatible level prefix, the level loop consumes exactly that much. -/
theorem matchLevels_consume (config : DexConfig) (taker : Order) (vol : Nat)
    (levels : List (Price × List Order))
    (h : ((levels.takeWhile (fun lvl => priceCompatible taker lvl.1)).map
           (fun lvl => queueMatchable config taker.trader lvl.2)).sum
         ≤ taker.remaining_amount) :
    (matchLevels config taker vol levels).taker.remaining_amount
      = taker.remaining_amount
        - ((levels.takeWhile (fun lvl => priceCompatible taker lvl.1)).map
            (fun lvl => queueMatchable config taker.trader lvl.2)).sum := by
  induction levels generalizing taker vol with
  | nil => simp [matchLevels]
  | cons lvl rest ih =>
    obtain ⟨p, q⟩ := lvl
    unfold matchLevels
    split_ifs with h0 h1
    · have : ((((p, q) :: rest).takeWhile
          (fun lvl => priceCompatible taker lvl.1)).map
            (fun lvl => queueMatchable config taker.trader lvl.2)).sum = 0 := by
        omega
      simp [this, h0]
    · rw [List.takeWhile_cons_of_neg (by simp [h1])]
      simp
    · rw [List.takeWhile_cons_of_pos (by simp [h1])] at h ⊢
      simp only [List.map_cons, List.sum_cons] at h ⊢
      set w := matchQueue config taker vol q with hw
      have hq : queueMatchable config taker.trader q ≤ taker.remaining_amount := by
        omega
      have hwrem : w.taker.remaining_amount
          = taker.remaining_amount - queueMatchable config taker.trader q :=
        matchQueue_consume config taker vol q hq
      have htr : w.taker.trader = taker.trader := matchQueue_taker_trader config taker vol q
      have hcompat : (fun lvl : Price × List Order => priceCompatible w.taker lvl.1)
          = (fun lvl : Price × List Order => priceCompatible taker lvl.1) := by
        funext lvl
        exact priceCompatible_congr taker w.taker
          (matchQueue_taker_price config taker vol q)
          (matchQueue_taker_side config taker vol q) lvl.1
      have ih' := ih w.taker w.volume (by rw [hcompat, htr, hwrem]; omega)
      rw [hcompat, htr, hwrem] at ih'
      rw [ih']
      omega

/-- The ids of a queue are unchanged by the walk (orders are only filled in
place, never reordered or replaced). -/
theorem matchQueue_queue_ids (config : DexConfig) (taker : Order) (vol : Nat)
    (q : List Order) :
    (matchQueue config taker vol q).queue.map (·.id) = q.map (·.id) := by
  induction q generalizing taker vol with
  | nil => rfl
  | cons m rest ih =>
    unfold matchQueue
    split_ifs
    · rfl
    · exact congrArg (m.id :: ·) (ih taker vol)
    · exact congrArg (m.id :: ·) (ih taker vol)
    · exact congrArg (m.id :: ·) (ih (mkFill config taker m).2.1
        (satAdd vol (mkFill config taker m).1.base_amount))

/-- Every order surviving the level loop has the id of an order that was
already resting in the walked levels. -/
theorem matchLevels_orders_sub (config : DexConfig) (taker : Order) (vol : Nat)
    (levels : List (Price × List Order)) :
    ∀ lvl' ∈ (matchLevels config taker vol levels).levels, ∀ o' ∈ lvl'.2,
      ∃ lvl ∈ levels, ∃ o ∈ lvl.2, o.id = o'.id := by
  induction levels generalizing taker vol with
  | nil => simp [matchLevels]
  | cons lvl rest ih =>
    obtain ⟨p, q⟩ := lvl
    intro lvl' hlvl' o' ho'
    unfold matchLevels at hlvl'
    split_ifs at hlvl' with h0 h1
    · exact ⟨lvl', hlvl', o', ho', rfl⟩
    · exact ⟨lvl', hlvl', o', ho', rfl⟩
    · have lift : lvl' ∈ (matchLevels config (matchQueue config taker vol q).taker
          (matchQueue config taker vol q).volume rest).levels →
          ∃ lvl ∈ (p, q) :: rest, ∃ o ∈ lvl.2, o.id = o'.id := by
        intro hmem
        obtain ⟨lvl, hl, o, ho, hid⟩ :=
          ih (matchQueue config taker vol q).taker
            (matchQueue config taker vol q).volume lvl' hmem o' ho'
        exact ⟨lvl, List.mem_cons_of_mem _ hl, o, ho, hid⟩
      have hlvl2 : lvl' ∈
          (if (matchQueue config taker vol q).queue.filter (·.is_active) = []
           then (matchLevels config (matchQueue config taker vol q).taker
                   (matchQueue config taker vol q).volume rest).levels
           else (p, (matchQueue config taker vol q).queue.filter (·.is_active))
             :: (matchLevels config (matchQueue config taker vol q).taker
                   (matchQueue config taker vol q).volume rest).levels) := hlvl'
      split_ifs at hlvl2 with hq
      · exact lift hlvl2
      · rcases List.mem_cons.mp hlvl2 with hl | hl
        · subst hl
          have hmem : o' ∈ (matchQueue config taker vol q).queue :=
            List.mem_of_mem_filter ho'
          have : o'.id ∈ (matchQueue config taker vol q).queue.map (·.id) :=
            List.mem_map_of_mem _ hmem
          rw [matchQueue_queue_ids] at this
          obtain ⟨o, ho, hid⟩ := List.mem_map.mp this
          exact ⟨(p, q), List.mem_cons_self _ _, o, ho, hid⟩
        · exact lift hl

/-- All resting order ids of a book. -/
def bookOrderIds (book : OrderBook) : List Nat :=
  ((book.bids ++ book.asks).map (fun lvl => lvl.2.map (·.id))).flatten

/-- C7. A market order never rests: the book after `place_market_order` holds
no order id that was not already resting before, and when the order's amount
exceeds the total matchable opposite-side liquidity the result reports
`fully_filled = false` with `remaining_amount = amount - matchable > 0`, i.e.
all matchable liquidity is consumed and the residual is discarded. -/
theorem market_order_no_rest :
    ∀ (book : OrderBook) (trader : Nat) (side : OrderSide) (amount : Nat)
      (config : DexConfig) (tr : TradeResult) (book' : OrderBook),
      book.place_market_order trader side amount config = (.ok tr, book') →
      (∀ i ∈ bookOrderIds book', i ∈ bookOrderIds book) ∧
      (marketMatchable config trader side book < amount →
        tr.fully_filled = false ∧
        tr.remaining_amount = amount - marketMatchable config trader side book ∧
        0 < tr.remaining_amount) := by
  intro book trader side amount config tr book' h
  unfold OrderBook.place_market_order at h
  split_ifs at h
  · simp at h
  · simp only [Prod.mk.injEq, Except.ok.injEq] at h
    obtain ⟨htr, hbk⟩ := h
    cases side with
    | Buy =>
      have hcompat : (fun lvl : Price × List Order =>
            priceCompatible (Order.new_market book.next_order_id trader .Buy amount) lvl.1)
          = (fun lvl : Price × List Order => sentinelCompatible .Buy lvl.1) := by
        funext lvl
        exact new_market_compatible book.next_order_id trader .Buy amount lvl.1
      set order := Order.new_market book.next_order_id trader .Buy amount with horder
      set r := matchLevels config order book.total_volume book.asks with hr
      have hids : ∀ i ∈ bookOrderIds book', i ∈ bookOrderIds book := by
        intro i hi
        have hi' : i ∈ ((book.bids ++ r.levels).map
            (fun lvl => lvl.2.map (·.id))).flatten := by
          rw [← hbk] at hi
          exact hi
        simp only [bookOrderIds, List.mem_flatten, List.mem_map, List.mem_append]
          at hi' ⊢
        obtain ⟨ids, ⟨lvl', hlvl', hids⟩, hmem⟩ := hi'
        subst hids
        rcases hlvl' with hl | hl
        · exact ⟨lvl'.2.map (·.id), ⟨lvl', Or.inl hl, rfl⟩, hmem⟩
        · obtain ⟨o', ho', hid⟩ := List.mem_map.mp hmem
          obtain ⟨lvl, hlvl, o, ho, hoid⟩ :=
            matchLevels_orders_sub config order book.total_volume book.asks lvl' hl o' ho'
          exact ⟨lvl.2.map (·.id), ⟨lvl, Or.inr hlvl, rfl⟩,
            List.mem_map.mpr ⟨o, ho, by rw [hoid, hid]⟩⟩
      refine ⟨hids, ?_⟩
      intro hlt
      have hM : marketMatchable config trader .Buy book
          = ((book.asks.takeWhile (fun lvl => priceCompatible order lvl.1)).map
              (fun lvl => queueMatchable config order.trader lvl.2)).sum := by
        show ((book.asks.takeWhile (fun lvl => sentinelCompatible .Buy lvl.1)).map
              (fun lvl => queueMatchable config trader lvl.2)).sum = _
        rw [hcompat]
        rfl
      have hle : ((book.asks.takeWhile (fun lvl => priceCompatible order lvl.1)).map
          (fun lvl => queueMatchable config order.trader lvl.2)).sum
          ≤ order.remaining_amount := by
        rw [← hM]
        exact le_of_lt hlt
      have hrem : r.taker.remaining_amount
          = amount - marketMatchable config trader .Buy book := by
        rw [hM]
        exact matchLevels_consume config order book.total_volume book.asks hle
      have htrr : tr = ⟨r.taker.id, r.fills, r.taker.remaining_amount,
          decide (r.taker.remaining_amount = 0)⟩ := by
        rw [← htr]
        rfl
      rw [htrr]
      refine ⟨?_, hrem, by show 0 < r.taker.remaining_amount; omega⟩
      show decide (r.taker.remaining_amount = 0) = false
      simp only [decide_eq_false_iff_not]
      omega
    | Sell =>
      have hcompat : (fun lvl : Price × List Order =>
            priceCompatible (Order.new_market book.next_order_id trader .Sell amount) lvl.1)
          = (fun lvl : Price × List Order => sentinelCompatible .Sell lvl.1) := by
        funext lvl
        exact new_market_compatible book.next_order_id trader .Sell amount lvl.1
      set order := Order.new_market book.next_order_id trader .Sell amount with horder
      set r := matchLevels config order book.total_volume book.bids with hr
      have hids : ∀ i ∈ bookOrderIds book', i ∈ bookOrderIds book := by
        intro i hi
        have hi' : i ∈ ((r.levels ++ book.asks).map
            (fun lvl => lvl.2.map (·.id))).flatten := by
          rw [← hbk] at hi
          exact hi
        simp only [bookOrderIds, List.mem_flatten, List.mem_map, List.mem_append]
          at hi' ⊢
        obtain ⟨ids, ⟨lvl', hlvl', hids⟩, hmem⟩ := hi'
        subst hids
        rcases hlvl' with hl | hl
        · obtain ⟨o', ho', hid⟩ := List.mem_map.mp hmem
          obtain ⟨lvl, hlvl, o, ho, hoid⟩ :=
            matchLevels_orders_sub config order book.total_volume book.bids lvl' hl o' ho'
          exact ⟨lvl.2.map (·.id), ⟨lvl, Or.inl hlvl, rfl⟩,
            List.mem_map.mpr ⟨o, ho, by rw [hoid, hid]⟩⟩
        · exact ⟨lvl'.2.map (·.id), ⟨lvl', Or.inr hl, rfl⟩, hmem⟩
      refine ⟨hids, ?_⟩
      intro hlt
      have hM : marketMatchable config trader .Sell book
          = ((book.bids.takeWhile (fun lvl => priceCompatible order lvl.1)).map
              (fun lvl => queueMatchable config order.trader lvl.2)).sum := by
        show ((book.bids.takeWhile (fun lvl => sentinelCompatible .Sell lvl.1)).map
              (fun lvl => queueMatchable config trader lvl.2)).sum = _
        rw [hcompat]
        rfl
      have hle : ((book.bids.takeWhile (fun lvl => priceCompatible order lvl.1)).map
          (fun lvl => queueMatchable config order.trader lvl.2)).sum
          ≤ order.remaining_amount := by
        rw [← hM]
        exact le_of_lt hlt
      have hrem : r.taker.remaining_amount
          = amount - marketMatchable config trader .Sell book := by
        rw [hM]
        exact matchLevels_consume config order book.total_volume book.bids hle
      have htrr : tr = ⟨r.taker.id, r.fills, r.taker.remaining_amount,
          decide (r.taker.remaining_amount = 0)⟩ := by
        rw [← htr]
        rfl
      rw [htrr]
      refine ⟨?_, hrem, by show 0 < r.taker.remaining_amount; omega⟩
      show decide (r.taker.remaining_amount = 0) = false
      simp only [decide_eq_false_iff_not]
      omega

/-! ### Rational order on prices and the saturating comparator -/

/-- Exact rational strict order on prices by cross multiplication. -/
def ratLt (p q : Price) : Prop :=
  p.numerator * q.denominator < q.numerator * p.denominator

instance (p q : Price) : Decidable (ratLt p q) := by
  unfold ratLt
  infer_instance

theorem natCmp_eq_lt {a b : Nat} : natCmp a b = Ordering.lt ↔ a < b := by
  unfold natCmp
  split_ifs with h1 h2 <;> simp_all

theorem natCmp_eq_gt {a b : Nat} : natCmp a b = Ordering.gt ↔ b < a := by
  unfold natCmp
  split_ifs with h1 h2 <;> simp_all <;> omega

/-- A strict saturating comparison implies the exact strict comparison. -/
theorem satMul_lt {a b c d : Nat} (h : satMul a b < satMul c d) : a * b < c * d := by
  unfold satMul at h
  omega

theorem cmp_value_lt {p q : Price} (h : Price.cmp_value p q = Ordering.lt) :
    ratLt p q :=
  satMul_lt (natCmp_eq_lt.mp h)

theorem cmp_value_gt {p q : Price} (h : Price.cmp_value p q = Ordering.gt) :
    ratLt q p :=
  satMul_lt (natCmp_eq_gt.mp h)

/-- Transitivity of the exact rational order; only the middle denominator
needs to be positive. -/
theorem ratLt_trans {a b c : Price} (_hbd : 0 < b.denominator)
    (h1 : ratLt a b) (h2 : ratLt b c) : ratLt a c := by
  unfold ratLt at h1 h2 ⊢
  have had : 0 < a.denominator := by
    rcases Nat.eq_zero_or_pos a.denominator with h | h
    · rw [h, Nat.mul_zero] at h1
      omega
    · exact h
  rcases Nat.eq_zero_or_pos c.denominator with hcd | hcd
  · rw [hcd, Nat.mul_zero] at h2
    rw [hcd, Nat.mul_zero]
    have hcn : 0 < c.numerator := by
      rcases Nat.eq_zero_or_pos c.numerator with h | h
      · rw [h, Nat.zero_mul] at h2
        omega
      · exact h
    exact Nat.mul_pos hcn had
  · have key : a.numerator * c.denominator * b.denominator
        < c.numerator * a.denominator * b.denominator := by
      calc a.numerator * c.denominator * b.denominator
          = a.numerator * b.denominator * c.denominator := by ring
        _ < b.numerator * a.denominator * c.denominator := by
            exact Nat.mul_lt_mul_of_lt_of_le h1 (le_refl _) hcd
        _ = b.numerator * c.denominator * a.denominator := by ring
        _ < c.numerator * b.denominator * a.denominator := by
            exact Nat.mul_lt_mul_of_lt_of_le h2 (le_refl _) had
        _ = c.numerator * a.denominator * b.denominator := by ring
    exact lt_of_mul_lt_mul_right key (Nat.zero_le _)

/-- The per-side rational order of the level maps: asks ascend, bids descend. -/
def ratRel (is_bid : Bool) (p q : Price) : Prop :=
  if is_bid then ratLt q p else ratLt p q

theorem levelCmp_lt {is_bid : Bool} {p q : Price}
    (h : levelCmp is_bid p q = Ordering.lt) : ratRel is_bid p q := by
  cases is_bid
  · exact cmp_value_lt h
  · exact cmp_value_lt h

theorem levelCmp_gt {is_bid : Bool} {p q : Price}
    (h : levelCmp is_bid p q = Ordering.gt) : ratRel is_bid q p := by
  cases is_bid
  · exact cmp_value_gt h
  · exact cmp_value_gt h

theorem ratRel_trans {is_bid : Bool} {a b c : Price} (hbd : 0 < b.denominator)
    (h1 : ratRel is_bid a b) (h2 : ratRel is_bid b c) : ratRel is_bid a c := by
  cases is_bid
  · exact ratLt_trans hbd h1 h2
  · exact ratLt_trans hbd h2 h1

/-! ### Structure of insertion into the level maps -/

theorem insertIntoLevels_prices (is_bid : Bool) (o : Order)
    (levels : List (Price × List Order)) :
    ∀ p ∈ (insertIntoLevels is_bid o levels).map Prod.fst,
      p = o.price ∨ p ∈ levels.map Prod.fst := by
  induction levels with
  | nil => simp [insertIntoLevels]
  | cons lvl rest ih =>
    obtain ⟨p0, q0⟩ := lvl
    intro p hp
    unfold insertIntoLevels at hp
    split at hp
    · simpa using hp
    · exact Or.inr (by simpa using hp)
    · simp only [List.map_cons, List.mem_cons] at hp
      rcases hp with hp | hp
      · exact Or.inr (by simp [hp])
      · rcases ih p hp with h | h
        · exact Or.inl h
        · exact Or.inr (by simp [h])

theorem insertIntoLevels_orders (is_bid : Bool) (o : Order)
    (levels : List (Price × List Order)) :
    ∀ lvl' ∈ insertIntoLevels is_bid o levels, ∀ ord ∈ lvl'.2,
      ord = o ∨ ∃ lvl ∈ levels, ord ∈ lvl.2 := by
  induction levels with
  | nil =>
    intro lvl' hl ord ho
    simp only [insertIntoLevels, List.mem_singleton] at hl
    subst hl
    simp at ho
    exact Or.inl ho
  | cons lvl rest ih =>
    obtain ⟨p0, q0⟩ := lvl
    intro lvl' hl ord ho
    unfold insertIntoLevels at hl
    split at hl
    · rcases List.mem_cons.mp hl with h | h
      · subst h
        simp at ho
        exact Or.inl ho
      · exact Or.inr ⟨lvl', h, ho⟩
    · rcases List.mem_cons.mp hl with h | h
      · subst h
        rcases List.mem_append.mp ho with h | h
        · exact Or.inr ⟨(p0, q0), List.mem_cons_self _ _, h⟩
        · simp at h
          exact Or.inl h
      · exact Or.inr ⟨lvl', List.mem_cons_of_mem _ h, ho⟩
    · rcases List.mem_cons.mp hl with h | h
      · subst h
        exact Or.inr ⟨(p0, q0), List.mem_cons_self _ _, ho⟩
      · rcases ih lvl' h ord ho with h' | ⟨lvl, hl2, ho2⟩
        · exact Or.inl h'
        · exact Or.inr ⟨lvl, List.mem_cons_of_mem _ hl2, ho2⟩

theorem insertIntoLevels_mem_self (is_bid : Bool) (o : Order)
    (levels : List (Price × List Order)) :
    ∃ lvl ∈ insertIntoLevels is_bid o levels, o ∈ lvl.2 := by
  induction levels with
  | nil => exact ⟨(o.price, [o]), by simp [insertIntoLevels]⟩
  | cons lvl rest ih =>
    obtain ⟨p0, q0⟩ := lvl
    unfold insertIntoLevels
    split
    · exact ⟨(o.price, [o]), by simp⟩
    · exact ⟨(p0, q0 ++ [o]), by simp⟩
    · obtain ⟨lvl, hl, ho⟩ := ih
      exact ⟨lvl, List.mem_cons_of_mem _ hl, ho⟩

theorem insertIntoLevels_preserves (is_bid : Bool) (o : Order)
    (levels : List (Price × List Order)) :
    ∀ lvl ∈ levels, ∀ ord ∈ lvl.2,
      ∃ lvl' ∈ insertIntoLevels is_bid o levels, ord ∈ lvl'.2 := by
  induction levels with
  | nil => simp
  | cons hd rest ih =>
    obtain ⟨p0, q0⟩ := hd
    intro lvl hl ord ho
    unfold insertIntoLevels
    split
    · exact ⟨lvl, List.mem_cons_of_mem _ hl, ho⟩
    · rcases List.mem_cons.mp hl with h | h
      · subst h
        exact ⟨(p0, q0 ++ [o]), List.mem_cons_self _ _, by
          simp only [List.mem_append]
          exact Or.inl ho⟩
      · exact ⟨lvl, List.mem_cons_of_mem _ h, ho⟩
    · rcases List.mem_cons.mp hl with h | h
      · subst h
        exact ⟨(p0, q0), List.mem_cons_self _ _, ho⟩
      · obtain ⟨lvl', hl', ho'⟩ := ih lvl h ord ho
        exact ⟨lvl', List.mem_cons_of_mem _ hl', ho'⟩

theorem insertIntoLevels_pairwise (is_bid : Bool) (o : Order)
    (levels : List (Price × List Order))
    (hs : (levels.map Prod.fst).Pairwise (ratRel is_bid))
    (hden : ∀ lvl ∈ levels, 0 < lvl.1.denominator) :
    ((insertIntoLevels is_bid o levels).map Prod.fst).Pairwise (ratRel is_bid) := by
  induction levels with
  | nil => simp [insertIntoLevels]
  | cons hd rest ih =>
    obtain ⟨p0, q0⟩ := hd
    simp only [List.map_cons, List.pairwise_cons] at hs
    obtain ⟨h0, hs'⟩ := hs
    have hden0 : 0 < p0.denominator := hden (p0, q0) (List.mem_cons_self _ _)
    have hdenr : ∀ lvl ∈ rest, 0 < lvl.1.denominator :=
      fun lvl hl => hden lvl (List.mem_cons_of_mem _ hl)
    unfold insertIntoLevels
    split
    · rename_i hc
      simp only [List.map_cons, List.pairwise_cons]
      refine ⟨?_, h0, hs'⟩
      intro p hp
      rcases List.mem_cons.mp hp with h | h
      · subst h
        exact levelCmp_lt hc
      · exact ratRel_trans hden0 (levelCmp_lt hc) (h0 p h)
    · simp only [List.map_cons, List.pairwise_cons]
      exact ⟨h0, hs'⟩
    · rename_i hc
      simp only [List.map_cons, List.pairwise_cons]
      refine ⟨?_, ih hs' hdenr⟩
      intro p hp
      rcases insertIntoLevels_prices is_bid o rest p hp with h | h
      · subst h
        exact levelCmp_gt hc
      · exact h0 p h

/-! ### Structure of the matching loop -/

theorem Order.fill_inactive (o : Order) (n : Nat)
    (h : o.remaining_amount - n = 0) : (o.fill n).is_active = false := by
  unfold Order.fill Order.is_active
  simp [h]

theorem matchQueue_zero (config : DexConfig) (taker : Order) (vol : Nat)
    (q : List Order) (h : taker.remaining_amount = 0) :
    matchQueue config taker vol q = ⟨taker, q, [], [], vol⟩ := by
  cases q <;> simp [matchQueue, h]

theorem matchLevels_zero (config : DexConfig) (taker : Order) (vol : Nat)
    (levels : List (Price × List Order)) (h : taker.remaining_amount = 0) :
    matchLevels config taker vol levels = ⟨taker, levels, [], [], vol⟩ := by
  cases levels with
  | nil => rfl
  | cons lvl rest =>
    obtain ⟨p, q⟩ := lvl
    simp [matchLevels, h]

/-- One-step unfolding of the level loop with the lets expanded. -/
theorem matchLevels_cons (config : DexConfig) (taker : Order) (vol : Nat)
    (p : Price) (q : List Order) (rest : List (Price × List Order)) :
    matchLevels config taker vol ((p, q) :: rest)
      = if taker.remaining_amount = 0 then ⟨taker, (p, q) :: rest, [], [], vol⟩
        else if priceCompatible taker p = false then
          ⟨taker, (p, q) :: rest, [], [], vol⟩
        else
          ⟨(matchLevels config (matchQueue config taker vol q).taker
              (matchQueue config taker vol q).volume rest).taker,
           if (matchQueue config taker vol q).queue.filter (·.is_active) = []
           then (matchLevels config (matchQueue config taker vol q).taker
                   (matchQueue config taker vol q).volume rest).levels
           else (p, (matchQueue config taker vol q).queue.filter (·.is_active))
             :: (matchLevels config (matchQueue config taker vol q).taker
                   (matchQueue config taker vol q).volume rest).levels,
           (matchQueue config taker vol q).fills
             ++ (matchLevels config (matchQueue config taker vol q).taker
                   (matchQueue config taker vol q).volume rest).fills,
           (matchQueue config taker vol q).removed
             ++ (matchLevels config (matchQueue config taker vol q).taker
                   (matchQueue config taker vol q).volume rest).removed,
           (matchLevels config (matchQueue config taker vol q).taker
               (matchQueue config taker vol q).volume rest).volume⟩ := rfl

/-- With self-trading allowed and an all-active queue, the walk either clears
the level or exhausts the taker. -/
theorem matchQueue_exhaust (config : DexConfig) (taker : Order) (vol : Nat)
    (q : List Order) (hallow : config.allow_self_trade = true)
    (hact : ∀ o ∈ q, o.is_active = true) :
    (matchQueue config taker vol q).queue.filter (·.is_active) = []
      ∨ (matchQueue config taker vol q).taker.remaining_amount = 0 := by
  induction q generalizing taker vol with
  | nil => exact Or.inl rfl
  | cons m rest ih =>
    unfold matchQueue
    split_ifs with h0 h1 h2
    · exact Or.inr h0
    · exact absurd (hact m (List.mem_cons_self _ _)) (by simp [h1])
    · rw [hallow] at h2
      simp at h2
    · show ((mkFill config taker m).2.2 ::
          (matchQueue config (mkFill config taker m).2.1
            (satAdd vol (mkFill config taker m).1.base_amount) rest).queue).filter
            (·.is_active) = []
        ∨ (matchQueue config (mkFill config taker m).2.1
            (satAdd vol (mkFill config taker m).1.base_amount) rest).taker.remaining_amount
          = 0
      by_cases hz : (mkFill config taker m).2.1.remaining_amount = 0
      · right
        rw [matchQueue_zero config _ _ rest hz]
        exact hz
      · have hbase : (mkFill config taker m).1.base_amount = m.remaining_amount := by
          rw [mkFill_taker_remaining, mkFill_base] at hz
          rw [mkFill_base]
          omega
        have hmk : m.remaining_amount - (mkFill config taker m).1.base_amount = 0 := by
          rw [hbase]
          omega
        have hmz : (mkFill config taker m).2.2.is_active = false :=
          Order.fill_inactive m _ hmk
        rcases ih (mkFill config taker m).2.1
          (satAdd vol (mkFill config taker m).1.base_amount)
          (fun o ho => hact o (List.mem_cons_of_mem _ ho)) with hleft | hright
        · left
          rw [List.filter_cons, if_neg (by simp [hmz])]
          exact hleft
        · exact Or.inr hright

/-- Surviving level prices are always a sublist of the original ones. -/
theorem matchLevels_levels_sublist (config : DexConfig) (taker : Order)
    (vol : Nat) (levels : List (Price × List Order)) :
    ((matchLevels config taker vol levels).levels.map Prod.fst).Sublist
      (levels.map Prod.fst) := by
  induction levels generalizing taker vol with
  | nil => simp [matchLevels]
  | cons lvl rest ih =>
    obtain ⟨p, q⟩ := lvl
    rw [matchLevels_cons]
    split_ifs with h0 h1 hq
    · exact List.Sublist.refl _
    · exact List.Sublist.refl _
    · exact List.Sublist.cons p (ih _ _)
    · exact List.Sublist.cons₂ p (ih _ _)

/-- Surviving queues contain only active orders when the input did. -/
theorem matchLevels_active (config : DexConfig) (taker : Order) (vol : Nat)
    (levels : List (Price × List Order))
    (hact : ∀ lvl ∈ levels, ∀ o ∈ lvl.2, o.is_active = true) :
    ∀ lvl' ∈ (matchLevels config taker vol levels).levels, ∀ o ∈ lvl'.2,
      o.is_active = true := by
  induction levels generalizing taker vol with
  | nil =>
    intro lvl' hl'
    simp [matchLevels] at hl'
  | cons lvl rest ih =>
    obtain ⟨p, q⟩ := lvl
    rw [matchLevels_cons]
    split_ifs with h0 h1 hq
    · exact hact
    · exact hact
    · exact ih _ _ (fun l hl => hact l (List.mem_cons_of_mem _ hl))
    · intro lvl' hl' o ho
      rcases List.mem_cons.mp hl' with h | h
      · subst h
        exact (List.mem_filter.mp ho).2
      · exact ih _ _ (fun l hl => hact l (List.mem_cons_of_mem _ hl)) lvl' h o ho

/-- With self-trading allowed, matching consumes a prefix of the levels: the
surviving prices are a `drop` of the original price list (the possibly
partially consumed front level keeps its price). -/
theorem matchLevels_drop (config : DexConfig) (taker : Order) (vol : Nat)
    (levels : List (Price × List Order))
    (hallow : config.allow_self_trade = true)
    (hact : ∀ lvl ∈ levels, ∀ o ∈ lvl.2, o.is_active = true) :
    ∃ n, (matchLevels config taker vol levels).levels.map Prod.fst
        = (levels.map Prod.fst).drop n := by
  induction levels generalizing taker vol with
  | nil => exact ⟨0, rfl⟩
  | cons lvl rest ih =>
    obtain ⟨p, q⟩ := lvl
    rw [matchLevels_cons]
    split_ifs with h0 h1 hq
    · exact ⟨0, rfl⟩
    · exact ⟨0, rfl⟩
    · obtain ⟨n, hn⟩ := ih _ _ (fun l hl => hact l (List.mem_cons_of_mem _ hl))
      exact ⟨n + 1, by simpa using hn⟩
    · rcases matchQueue_exhaust config taker vol q hallow
        (fun o ho => hact (p, q) (List.mem_cons_self _ _) o ho) with hfe | hz
      · exact absurd hfe hq
      · rw [matchLevels_zero config _ _ rest hz]
        exact ⟨0, rfl⟩

theorem matchLevels_taker_price (config : DexConfig) (taker : Order) (vol : Nat)
    (levels : List (Price × List Order)) :
    (matchLevels config taker vol levels).taker.price = taker.price := by
  induction levels generalizing taker vol with
  | nil => rfl
  | cons lvl rest ih =>
    obtain ⟨p, q⟩ := lvl
    rw [matchLevels_cons]
    split_ifs
    · rfl
    · rfl
    · exact (ih _ _).trans (matchQueue_taker_price config taker vol q)
    · exact (ih _ _).trans (matchQueue_taker_price config taker vol q)

theorem matchLevels_taker_side (config : DexConfig) (taker : Order) (vol : Nat)
    (levels : List (Price × List Order)) :
    (matchLevels config taker vol levels).taker.side = taker.side := by
  induction levels generalizing taker vol with
  | nil => rfl
  | cons lvl rest ih =>
    obtain ⟨p, q⟩ := lvl
    rw [matchLevels_cons]
    split_ifs
    · rfl
    · rfl
    · exact (ih _ _).trans (matchQueue_taker_side config taker vol q)
    · exact (ih _ _).trans (matchQueue_taker_side config taker vol q)

theorem matchLevels_taker_trader (config : DexConfig) (taker : Order) (vol : Nat)
    (levels : List (Price × List Order)) :
    (matchLevels config taker vol levels).taker.trader = taker.trader := by
  induction levels generalizing taker vol with
  | nil => rfl
  | cons lvl rest ih =>
    obtain ⟨p, q⟩ := lvl
    rw [matchLevels_cons]
    split_ifs
    · rfl
    · rfl
    · exact (ih _ _).trans (matchQueue_taker_trader config taker vol q)
    · exact (ih _ _).trans (matchQueue_taker_trader config taker vol q)

/-- With self-trading allowed, when the taker is left unfilled the first
surviving level is price-incompatible with it. -/
theorem matchLevels_break (config : DexConfig) (taker : Order) (vol : Nat)
    (levels : List (Price × List Order))
    (hallow : config.allow_self_trade = true)
    (hact : ∀ lvl ∈ levels, ∀ o ∈ lvl.2, o.is_active = true)
    (hrem : (matchLevels config taker vol levels).taker.remaining_amount ≠ 0) :
    ∀ lvl0, (matchLevels config taker vol levels).levels.head? = some lvl0 →
      priceCompatible taker lvl0.1 = false := by
  induction levels generalizing taker vol with
  | nil =>
    intro lvl0 h
    simp [matchLevels] at h
  | cons lvl rest ih =>
    obtain ⟨p, q⟩ := lvl
    rw [matchLevels_cons] at hrem ⊢
    split_ifs at hrem ⊢ with h0 h1 hq
    · exact absurd h0 hrem
    · intro lvl0 hh
      simp only [List.head?_cons, Option.some.injEq] at hh
      subst hh
      exact h1
    · intro lvl0 hh
      have hw := ih (matchQueue config taker vol q).taker
        (matchQueue config taker vol q).volume
        (fun l hl => hact l (List.mem_cons_of_mem _ hl)) hrem lvl0 hh
      rw [priceCompatible_congr taker (matchQueue config taker vol q).taker
        (matchQueue_taker_price config taker vol q)
        (matchQueue_taker_side config taker vol q) lvl0.1] at hw
      exact hw
    · rcases matchQueue_exhaust config taker vol q hallow
        (fun o ho => hact (p, q) (List.mem_cons_self _ _) o ho) with hfe | hz
      · exact absurd hfe hq
      · exfalso
        apply hrem
        rw [matchLevels_zero config _ _ rest hz]
        exact hz

/-- An order id that the walk did not mark for removal still identifies an
active order in the retained queue. -/
theorem matchQueue_surviving (config : DexConfig) (taker : Order) (vol : Nat)
    (q : List Order) (hact : ∀ o ∈ q, o.is_active = true) :
    ∀ oid, (∃ o ∈ q, o.id = oid) →
      oid ∉ (matchQueue config taker vol q).removed →
      ∃ o' ∈ (matchQueue config taker vol q).queue.filter (·.is_active),
        o'.id = oid := by
  induction q generalizing taker vol with
  | nil =>
    intro oid h
    simp at h
  | cons m rest ih =>
    intro oid hex hnr
    unfold matchQueue at hnr ⊢
    split_ifs at hnr ⊢ with h0 h1 h2
    · obtain ⟨o, ho, hid⟩ := hex
      exact ⟨o, List.mem_filter.mpr ⟨ho, hact o ho⟩, hid⟩
    · exact absurd (hact m (List.mem_cons_self _ _)) (by simp [h1])
    · obtain ⟨o, ho, hid⟩ := hex
      rcases List.mem_cons.mp ho with h | h
      · subst h
        exact ⟨o, List.mem_filter.mpr ⟨List.mem_cons_self _ _,
          hact o (List.mem_cons_self _ _)⟩, hid⟩
      · obtain ⟨o', ho', hid'⟩ := ih taker vol
          (fun x hx => hact x (List.mem_cons_of_mem _ hx)) oid ⟨o, h, hid⟩ hnr
        refine ⟨o', ?_, hid'⟩
        have := List.mem_filter.mp ho'
        exact List.mem_filter.mpr ⟨List.mem_cons_of_mem _ this.1, this.2⟩
    · have hnr2 : oid ∉ (matchQueue config (mkFill config taker m).2.1
          (satAdd vol (mkFill config taker m).1.base_amount) rest).removed := by
        intro hmem
        exact hnr (List.mem_append.mpr (Or.inr hmem))
      obtain ⟨o, ho, hid⟩ := hex
      rcases List.mem_cons.mp ho with h | h
      · subst h
        have hactive : (mkFill config taker o).2.2.is_active = true := by
          cases hma : (mkFill config taker o).2.2.is_active
          · exfalso
            apply hnr
            apply List.mem_append.mpr
            left
            rw [if_neg (by simp [hma])]
            simp only [List.mem_singleton]
            exact hid.symm
          · rfl
        refine ⟨(mkFill config taker o).2.2, ?_, hid⟩
        exact List.mem_filter.mpr ⟨List.mem_cons_self _ _, hactive⟩
      · obtain ⟨o', ho', hid'⟩ := ih (mkFill config taker m).2.1
          (satAdd vol (mkFill config taker m).1.base_amount)
          (fun x hx => hact x (List.mem_cons_of_mem _ hx)) oid ⟨o, h, hid⟩ hnr2
        refine ⟨o', ?_, hid'⟩
        have := List.mem_filter.mp ho'
        exact List.mem_filter.mpr ⟨List.mem_cons_of_mem _ this.1, this.2⟩

/-- Lift of `matchQueue_surviving` across the level loop. -/
theorem matchLevels_surviving (config : DexConfig) (taker : Order) (vol : Nat)
    (levels : List (Price × List Order))
    (hact : ∀ lvl ∈ levels, ∀ o ∈ lvl.2, o.is_active = true) :
    ∀ oid, (∃ lvl ∈ levels, ∃ o ∈ lvl.2, o.id = oid) →
      oid ∉ (matchLevels config taker vol levels).removed →
      ∃ lvl' ∈ (matchLevels config taker vol levels).levels, ∃ o' ∈ lvl'.2,
        o'.id = oid := by
  induction levels generalizing taker vol with
  | nil =>
    intro oid h
    simp at h
  | cons lvl rest ih =>
    obtain ⟨p, q⟩ := lvl
    intro oid hex hnr
    rw [matchLevels_cons] at hnr ⊢
    split_ifs at hnr ⊢ with h0 h1 hq
    · exact hex
    · exact hex
    · -- front level cleared: the survivor cannot be in it
      have hnrw : oid ∉ (matchQueue config taker vol q).removed :=
        fun hmem => hnr (List.mem_append.mpr (Or.inl hmem))
      have hnrr : oid ∉ (matchLevels config (matchQueue config taker vol q).taker
          (matchQueue config taker vol q).volume rest).removed :=
        fun hmem => hnr (List.mem_append.mpr (Or.inr hmem))
      obtain ⟨lvl0, hl0, o, ho, hid⟩ := hex
      rcases List.mem_cons.mp hl0 with h | h
      · subst h
        obtain ⟨o', ho', hid'⟩ := matchQueue_surviving config taker vol q
          (fun x hx => hact (p, q) (List.mem_cons_self _ _) x hx) oid ⟨o, ho, hid⟩ hnrw
        rw [hq] at ho'
        simp at ho'
      · exact ih _ _ (fun l hl => hact l (List.mem_cons_of_mem _ hl)) oid
          ⟨lvl0, h, o, ho, hid⟩ hnrr
    · have hnrw : oid ∉ (matchQueue config taker vol q).removed :=
        fun hmem => hnr (List.mem_append.mpr (Or.inl hmem))
      have hnrr : oid ∉ (matchLevels config (matchQueue config taker vol q).taker
          (matchQueue config taker vol q).volume rest).removed :=
        fun hmem => hnr (List.mem_append.mpr (Or.inr hmem))
      obtain ⟨lvl0, hl0, o, ho, hid⟩ := hex
      rcases List.mem_cons.mp hl0 with h | h
      · subst h
        obtain ⟨o', ho', hid'⟩ := matchQueue_surviving config taker vol q
          (fun x hx => hact (p, q) (List.mem_cons_self _ _) x hx) oid ⟨o, ho, hid⟩ hnrw
        exact ⟨(p, (matchQueue config taker vol q).queue.filter (·.is_active)),
          List.mem_cons_self _ _, o', ho', hid'⟩
      · obtain ⟨lvl', hl', o', ho', hid'⟩ :=
          ih _ _ (fun l hl => hact l (List.mem_cons_of_mem _ hl)) oid
            ⟨lvl0, h, o, ho, hid⟩ hnrr
        exact ⟨lvl', List.mem_cons_of_mem _ hl', o', ho', hid'⟩

/-! ### Structure of removal (cancel) -/

theorem removeFirstById_spec (oid : Nat) (q : List Order) :
    ∀ o q', removeFirstById oid q = some (o, q') →
      o.id = oid ∧ o ∈ q ∧ (∀ x ∈ q', x ∈ q)
        ∧ (∀ x ∈ q, x.id ≠ oid → x ∈ q') := by
  induction q with
  | nil => intro o q' h; simp [removeFirstById] at h
  | cons m rest ih =>
    intro o q' h
    unfold removeFirstById at h
    split_ifs at h with hid
    · simp only [Option.some.injEq, Prod.mk.injEq] at h
      obtain ⟨ho, hq⟩ := h
      subst ho
      subst hq
      refine ⟨hid, List.mem_cons_self _ _, fun x hx => List.mem_cons_of_mem _ hx, ?_⟩
      intro x hx hne
      rcases List.mem_cons.mp hx with h | h
      · subst h
        exact absurd hid hne
      · exact h
    · split at h
      · exact absurd h (by simp)
      · rename_i o2 rest2 hrec
        simp only [Option.some.injEq, Prod.mk.injEq] at h
        obtain ⟨ho, hq⟩ := h
        subst ho
        subst hq
        obtain ⟨h1, h2, h3, h4⟩ := ih o2 rest2 hrec
        refine ⟨h1, List.mem_cons_of_mem _ h2, ?_, ?_⟩
        · intro x hx
          rcases List.mem_cons.mp hx with h | h
          · subst h
            exact List.mem_cons_self _ _
          · exact List.mem_cons_of_mem _ (h3 x h)
        · intro x hx hne
          rcases List.mem_cons.mp hx with h | h
          · subst h
            exact List.mem_cons_self _ _
          · exact List.mem_cons_of_mem _ (h4 x h hne)

theorem removeFromLevels_spec (is_bid : Bool) (P : Price) (oid : Nat)
    (levels : List (Price × List Order)) :
    ∀ o levels', removeFromLevels is_bid P oid levels = some (o, levels') →
      o.id = oid ∧
      ((levels'.map Prod.fst).Sublist (levels.map Prod.fst)) ∧
      (∀ lvl' ∈ levels', ∀ ord ∈ lvl'.2, ∃ lvl ∈ levels, ord ∈ lvl.2) ∧
      (∀ lvl ∈ levels, ∀ ord ∈ lvl.2, ord.id ≠ oid →
        ∃ lvl' ∈ levels', ord ∈ lvl'.2) := by
  induction levels with
  | nil => intro o levels' h; simp [removeFromLevels] at h
  | cons lvl rest ih =>
    obtain ⟨p0, q0⟩ := lvl
    intro o levels' h
    unfold removeFromLevels at h
    split at h
    · exact absurd h (by simp)
    · split at h
      · exact absurd h (by simp)
      · rename_i o2 q2 hrem
        simp only [Option.some.injEq, Prod.mk.injEq] at h
        obtain ⟨ho, hl⟩ := h
        subst ho
        subst hl
        obtain ⟨h1, h2, h3, h4⟩ := removeFirstById_spec oid q0 o2 q2 hrem
        refine ⟨h1, ?_, ?_, ?_⟩
        · split_ifs with hq
          · exact List.Sublist.cons _ (List.Sublist.refl _)
          · exact List.Sublist.cons₂ _ (List.Sublist.refl _)
        · intro lvl' hl' ord ho'
          split_ifs at hl' with hq
          · exact ⟨lvl', List.mem_cons_of_mem _ hl', ho'⟩
          · rcases List.mem_cons.mp hl' with h | h
            · subst h
              exact ⟨(p0, q0), List.mem_cons_self _ _, h3 ord ho'⟩
            · exact ⟨lvl', List.mem_cons_of_mem _ h, ho'⟩
        · intro lvl hlm ord ho' hne
          rcases List.mem_cons.mp hlm with h | h
          · subst h
            have hin : ord ∈ q2 := h4 ord ho' hne
            split_ifs with hq
            · rw [hq] at hin
              simp at hin
            · exact ⟨(p0, q2), List.mem_cons_self _ _, hin⟩
          · split_ifs with hq
            · exact ⟨lvl, h, ho'⟩
            · exact ⟨lvl, List.mem_cons_of_mem _ h, ho'⟩
    · split at h
      · exact absurd h (by simp)
      · rename_i o2 rest2 hrec
        simp only [Option.some.injEq, Prod.mk.injEq] at h
        obtain ⟨ho, hl⟩ := h
        subst ho
        subst hl
        obtain ⟨h1, h2, h3, h4⟩ := ih o2 rest2 hrec
        refine ⟨h1, List.Sublist.cons₂ _ h2, ?_, ?_⟩
        · intro lvl' hl' ord ho'
          rcases List.mem_cons.mp hl' with h | h
          · subst h
            exact ⟨(p0, q0), List.mem_cons_self _ _, ho'⟩
          · obtain ⟨lvl, hlm, ho2⟩ := h3 lvl' h ord ho'
            exact ⟨lvl, List.mem_cons_of_mem _ hlm, ho2⟩
        · intro lvl hlm ord ho' hne
          rcases List.mem_cons.mp hlm with h | h
          · subst h
            exact ⟨(p0, q0), List.mem_cons_self _ _, ho'⟩
          · obtain ⟨lvl', hl', ho2⟩ := h4 lvl h ord ho' hne
            exact ⟨lvl', List.mem_cons_of_mem _ hl', ho2⟩

/-! ### Well-formedness of reachable books -/

/-- Constraints every price entering `place_limit_order` satisfies: built by
`Price::new` / `Price::from_u128` (positive denominator, `u128` components)
after the host adapter rejected zero numerators and denominators. -/
def priceOk (p : Price) : Prop :=
  0 < p.numerator ∧ 0 < p.denominator ∧
  p.numerator ≤ U128MAX ∧ p.denominator ≤ U128MAX

/-- Well-formedness of one side's level map: prices in strict per-side order,
queues all active, denominators positive. -/
def sideWF (is_bid : Bool) (levels : List (Price × List Order)) : Prop :=
  (levels.map Prod.fst).Pairwise (ratRel is_bid) ∧
  (∀ lvl ∈ levels, ∀ o ∈ lvl.2, o.is_active = true) ∧
  (∀ lvl ∈ levels, 0 < lvl.1.denominator)

/-- Well-formedness of a book: both sides well-formed and every id in the
order index identifies a resting order. -/
structure BookWF (book : OrderBook) : Prop where
  bids : sideWF true book.bids
  asks : sideWF false book.asks
  idx : ∀ oid loc, List.lookup oid book.orders = some loc →
    ∃ lvl ∈ book.bids ++ book.asks, ∃ o ∈ lvl.2, o.id = oid

/-- The no-crossing property: every bid price is rationally below every ask
price. -/
def crossBook (book : OrderBook) : Prop :=
  ∀ pb ∈ book.bids.map Prod.fst, ∀ pa ∈ book.asks.map Prod.fst, ratLt pb pa

theorem lookup_cons_ne {rest : List (Nat × OrderLocation)} {k oid : Nat}
    {v : OrderLocation} (hne : oid ≠ k) :
    List.lookup oid ((k, v) :: rest) = List.lookup oid rest := by
  simp only [List.lookup]
  rw [show (oid == k) = false from beq_eq_false_iff_ne.mpr hne]

theorem lookup_cons_eq {rest : List (Nat × OrderLocation)} {k oid : Nat}
    {v : OrderLocation} (he : oid = k) :
    List.lookup oid ((k, v) :: rest) = some v := by
  simp only [List.lookup]
  rw [show (oid == k) = true from beq_iff_eq.mpr he]

theorem lookup_eraseIds {l : List (Nat × OrderLocation)} {ids : List Nat}
    {oid : Nat} {loc : OrderLocation}
    (h : List.lookup oid (eraseIds l ids) = some loc) :
    List.lookup oid l = some loc ∧ oid ∉ ids := by
  induction l with
  | nil => simp [eraseIds] at h
  | cons e rest ih =>
    obtain ⟨k, v⟩ := e
    unfold eraseIds at h ih
    rw [List.filter_cons] at h
    by_cases hk : k ∈ ids
    · rw [if_neg (by simp [hk])] at h
      obtain ⟨h1, h2⟩ := ih h
      have hne : oid ≠ k := fun he => h2 (he ▸ hk)
      rw [lookup_cons_ne hne]
      exact ⟨h1, h2⟩
    · rw [if_pos (by simp [hk])] at h
      by_cases he : oid = k
      · rw [lookup_cons_eq he] at h ⊢
        exact ⟨h, he ▸ hk⟩
      · rw [lookup_cons_ne he] at h ⊢
        exact ih h

theorem lookup_filter_single {l : List (Nat × OrderLocation)} {k oid : Nat}
    {loc : OrderLocation}
    (h : List.lookup oid (l.filter (fun e => !(decide (e.1 = k)))) = some loc) :
    List.lookup oid l = some loc ∧ oid ≠ k := by
  induction l with
  | nil => simp at h
  | cons e rest ih =>
    obtain ⟨k0, v⟩ := e
    rw [List.filter_cons] at h
    by_cases hk : k0 = k
    · rw [if_neg (by simp [hk])] at h
      obtain ⟨h1, h2⟩ := ih h
      have hne : oid ≠ k0 := hk ▸ h2
      rw [lookup_cons_ne hne]
      exact ⟨h1, h2⟩
    · rw [if_pos (by simp [hk])] at h
      by_cases he : oid = k0
      · rw [lookup_cons_eq he] at h ⊢
        exact ⟨h, he ▸ hk⟩
      · rw [lookup_cons_ne he] at h ⊢
        exact ih h

theorem lookup_idxInsert {l : List (Nat × OrderLocation)} {k oid : Nat}
    {v loc : OrderLocation}
    (h : List.lookup oid (idxInsert l k v) = some loc) :
    (oid = k ∧ loc = v) ∨ (oid ≠ k ∧ List.lookup oid l = some loc) := by
  unfold idxInsert at h
  by_cases he : oid = k
  · rw [lookup_cons_eq he] at h
    simp only [Option.some.injEq] at h
    exact Or.inl ⟨he, h.symm⟩
  · rw [lookup_cons_ne he] at h
    exact Or.inr ⟨he, (lookup_filter_single h).1⟩

theorem lookup_idxErase {l : List (Nat × OrderLocation)} {k oid : Nat}
    {loc : OrderLocation}
    (h : List.lookup oid (idxErase l k) = some loc) :
    List.lookup oid l = some loc ∧ oid ≠ k :=
  lookup_filter_single h

theorem sideWF_match (is_bid : Bool) (config : DexConfig) (taker : Order)
    (vol : Nat) (levels : List (Price × List Order))
    (h : sideWF is_bid levels) :
    sideWF is_bid (matchLevels config taker vol levels).levels := by
  obtain ⟨hs, ha, hd⟩ := h
  refine ⟨hs.sublist (matchLevels_levels_sublist config taker vol levels),
    matchLevels_active config taker vol levels ha, ?_⟩
  intro lvl' hl'
  have hmem : lvl'.1 ∈ levels.map Prod.fst :=
    (matchLevels_levels_sublist config taker vol levels).subset
      (List.mem_map_of_mem _ hl')
  obtain ⟨lvl, hl, he⟩ := List.mem_map.mp hmem
  rw [← he]
  exact hd lvl hl

theorem sideWF_insert (is_bid : Bool) (o : Order)
    (levels : List (Price × List Order)) (h : sideWF is_bid levels)
    (hact : o.is_active = true) (hden : 0 < o.price.denominator) :
    sideWF is_bid (insertIntoLevels is_bid o levels) := by
  obtain ⟨hs, ha, hd⟩ := h
  refine ⟨insertIntoLevels_pairwise is_bid o levels hs hd, ?_, ?_⟩
  · intro lvl' hl' ord ho'
    rcases insertIntoLevels_orders is_bid o levels lvl' hl' ord ho' with h | ⟨lvl, hl, ho⟩
    · rw [h]
      exact hact
    · exact ha lvl hl ord ho
  · intro lvl' hl'
    rcases insertIntoLevels_prices is_bid o levels lvl'.1
      (List.mem_map_of_mem _ hl') with h | h
    · rw [h]
      exact hden
    · obtain ⟨lvl, hl, he⟩ := List.mem_map.mp h
      rw [← he]
      exact hd lvl hl

theorem sideWF_remove (is_bid : Bool) (P : Price) (oid : Nat)
    (levels : List (Price × List Order)) (o : Order)
    (levels' : List (Price × List Order))
    (hrm : removeFromLevels is_bid P oid levels = some (o, levels'))
    (h : sideWF is_bid levels) : sideWF is_bid levels' := by
  obtain ⟨hs, ha, hd⟩ := h
  obtain ⟨-, hsub, hin, -⟩ := removeFromLevels_spec is_bid P oid levels o levels' hrm
  refine ⟨hs.sublist hsub, ?_, ?_⟩
  · intro lvl' hl' ord ho'
    obtain ⟨lvl, hl, ho⟩ := hin lvl' hl' ord ho'
    exact ha lvl hl ord ho
  · intro lvl' hl'
    have hmem : lvl'.1 ∈ levels.map Prod.fst :=
      hsub.subset (List.mem_map_of_mem _ hl')
    obtain ⟨lvl, hl, he⟩ := List.mem_map.mp hmem
    rw [← he]
    exact hd lvl hl

theorem wf_match_buy (book : OrderBook) (config : DexConfig) (taker : Order)
    (vol n v : Nat) (h : BookWF book) :
    BookWF ⟨book.pair, book.bids,
      (matchLevels config taker vol book.asks).levels,
      eraseIds book.orders (matchLevels config taker vol book.asks).removed,
      n, v⟩ := by
  refine ⟨h.bids, sideWF_match false config taker vol book.asks h.asks, ?_⟩
  intro oid loc hl
  obtain ⟨h1, h2⟩ := lookup_eraseIds hl
  obtain ⟨lvl, hlm, o, ho, hid⟩ := h.idx oid loc h1
  rcases List.mem_append.mp hlm with hb | ha
  · exact ⟨lvl, List.mem_append.mpr (Or.inl hb), o, ho, hid⟩
  · obtain ⟨lvl', hl', o', ho', hid'⟩ := matchLevels_surviving config taker vol
      book.asks h.asks.2.1 oid ⟨lvl, ha, o, ho, hid⟩ h2
    exact ⟨lvl', List.mem_append.mpr (Or.inr hl'), o', ho', hid'⟩

theorem wf_match_sell (book : OrderBook) (config : DexConfig) (taker : Order)
    (vol n v : Nat) (h : BookWF book) :
    BookWF ⟨book.pair, (matchLevels config taker vol book.bids).levels,
      book.asks,
      eraseIds book.orders (matchLevels config taker vol book.bids).removed,
      n, v⟩ := by
  refine ⟨sideWF_match true config taker vol book.bids h.bids, h.asks, ?_⟩
  intro oid loc hl
  obtain ⟨h1, h2⟩ := lookup_eraseIds hl
  obtain ⟨lvl, hlm, o, ho, hid⟩ := h.idx oid loc h1
  rcases List.mem_append.mp hlm with hb | ha
  · obtain ⟨lvl', hl', o', ho', hid'⟩ := matchLevels_surviving config taker vol
      book.bids h.bids.2.1 oid ⟨lvl, hb, o, ho, hid⟩ h2
    exact ⟨lvl', List.mem_append.mpr (Or.inl hl'), o', ho', hid'⟩
  · exact ⟨lvl, List.mem_append.mpr (Or.inr ha), o, ho, hid⟩

theorem wf_add_order (book : OrderBook) (o : Order) (h : BookWF book)
    (hact : o.is_active = true) (hden : 0 < o.price.denominator) :
    BookWF (book.add_order_to_book o) := by
  unfold OrderBook.add_order_to_book
  split
  · refine ⟨sideWF_insert true o book.bids h.bids hact hden, h.asks, ?_⟩
    intro oid loc hl
    rcases lookup_idxInsert hl with ⟨he, -⟩ | ⟨hne, hl2⟩
    · obtain ⟨lvl, hlm, ho⟩ := insertIntoLevels_mem_self true o book.bids
      exact ⟨lvl, List.mem_append.mpr (Or.inl hlm), o, ho, he.symm⟩
    · obtain ⟨lvl, hlm, o2, ho2, hid⟩ := h.idx oid loc hl2
      rcases List.mem_append.mp hlm with hb | ha
      · obtain ⟨lvl', hl', ho'⟩ :=
          insertIntoLevels_preserves true o book.bids lvl hb o2 ho2
        exact ⟨lvl', List.mem_append.mpr (Or.inl hl'), o2, ho', hid⟩
      · exact ⟨lvl, List.mem_append.mpr (Or.inr ha), o2, ho2, hid⟩
  · refine ⟨h.bids, sideWF_insert false o book.asks h.asks hact hden, ?_⟩
    intro oid loc hl
    rcases lookup_idxInsert hl with ⟨he, -⟩ | ⟨hne, hl2⟩
    · obtain ⟨lvl, hlm, ho⟩ := insertIntoLevels_mem_self false o book.asks
      exact ⟨lvl, List.mem_append.mpr (Or.inr hlm), o, ho, he.symm⟩
    · obtain ⟨lvl, hlm, o2, ho2, hid⟩ := h.idx oid loc hl2
      rcases List.mem_append.mp hlm with hb | ha
      · exact ⟨lvl, List.mem_append.mpr (Or.inl hb), o2, ho2, hid⟩
      · obtain ⟨lvl', hl', ho'⟩ :=
          insertIntoLevels_preserves false o book.asks lvl ha o2 ho2
        exact ⟨lvl', List.mem_append.mpr (Or.inr hl'), o2, ho', hid⟩

theorem wf_limit_buy_result (book : OrderBook) (trader : Nat) (price : Price)
    (amount : Nat) (config : DexConfig) (h : BookWF book)
    (hden : 0 < price.denominator) :
    BookWF (if ((matchLevels config
          (Order.new_limit book.next_order_id trader .Buy price amount)
          book.total_volume book.asks).taker.remaining_amount ≠ 0 ∧
        (matchLevels config
          (Order.new_limit book.next_order_id trader .Buy price amount)
          book.total_volume book.asks).taker.is_active = true) then
        OrderBook.add_order_to_book
          ⟨book.pair, book.bids,
            (matchLevels config
              (Order.new_limit book.next_order_id trader .Buy price amount)
              book.total_volume book.asks).levels,
            eraseIds book.orders (matchLevels config
              (Order.new_limit book.next_order_id trader .Buy price amount)
              book.total_volume book.asks).removed,
            book.next_order_id + 1,
            (matchLevels config
              (Order.new_limit book.next_order_id trader .Buy price amount)
              book.total_volume book.asks).volume⟩
          (matchLevels config
            (Order.new_limit book.next_order_id trader .Buy price amount)
            book.total_volume book.asks).taker
      else
        ⟨book.pair, book.bids,
          (matchLevels config
            (Order.new_limit book.next_order_id trader .Buy price amount)
            book.total_volume book.asks).levels,
          eraseIds book.orders (matchLevels config
            (Order.new_limit book.next_order_id trader .Buy price amount)
            book.total_volume book.asks).removed,
          book.next_order_id + 1,
          (matchLevels config
            (Order.new_limit book.next_order_id trader .Buy price amount)
            book.total_volume book.asks).volume⟩) := by
  have hmid := wf_match_buy book config
    (Order.new_limit book.next_order_id trader .Buy price amount)
    book.total_volume (book.next_order_id + 1)
    (matchLevels config (Order.new_limit book.next_order_id trader .Buy price amount)
      book.total_volume book.asks).volume h
  split_ifs with hc
  · refine wf_add_order _ _ hmid hc.2 ?_
    have hp := matchLevels_taker_price config
      (Order.new_limit book.next_order_id trader .Buy price amount)
      book.total_volume book.asks
    rw [hp]
    exact hden
  · exact hmid

theorem wf_limit_sell_result (book : OrderBook) (trader : Nat) (price : Price)
    (amount : Nat) (config : DexConfig) (h : BookWF book)
    (hden : 0 < price.denominator) :
    BookWF (if ((matchLevels config
          (Order.new_limit book.next_order_id trader .Sell price amount)
          book.total_volume book.bids).taker.remaining_amount ≠ 0 ∧
        (matchLevels config
          (Order.new_limit book.next_order_id trader .Sell price amount)
          book.total_volume book.bids).taker.is_active = true) then
        OrderBook.add_order_to_book
          ⟨book.pair,
            (matchLevels config
              (Order.new_limit book.next_order_id trader .Sell price amount)
              book.total_volume book.bids).levels,
            book.asks,
            eraseIds book.orders (matchLevels config
              (Order.new_limit book.next_order_id trader .Sell price amount)
              book.total_volume book.bids).removed,
            book.next_order_id + 1,
            (matchLevels config
              (Order.new_limit book.next_order_id trader .Sell price amount)
              book.total_volume book.bids).volume⟩
          (matchLevels config
            (Order.new_limit book.next_order_id trader .Sell price amount)
            book.total_volume book.bids).taker
      else
        ⟨book.pair,
          (matchLevels config
            (Order.new_limit book.next_order_id trader .Sell price amount)
            book.total_volume book.bids).levels,
          book.asks,
          eraseIds book.orders (matchLevels config
            (Order.new_limit book.next_order_id trader .Sell price amount)
            book.total_volume book.bids).removed,
          book.next_order_id + 1,
          (matchLevels config
            (Order.new_limit book.next_order_id trader .Sell price amount)
            book.total_volume book.bids).volume⟩) := by
  have hmid := wf_match_sell book config
    (Order.new_limit book.next_order_id trader .Sell price amount)
    book.total_volume (book.next_order_id + 1)
    (matchLevels config (Order.new_limit book.next_order_id trader .Sell price amount)
      book.total_volume book.bids).volume h
  split_ifs with hc
  · refine wf_add_order _ _ hmid hc.2 ?_
    have hp := matchLevels_taker_price config
      (Order.new_limit book.next_order_id trader .Sell price amount)
      book.total_volume book.bids
    rw [hp]
    exact hden
  · exact hmid

theorem wf_place_limit (book : OrderBook) (trader : Nat) (side : OrderSide)
    (price : Price) (amount : Nat) (config : DexConfig) (h : BookWF book)
    (hden : 0 < price.denominator) :
    BookWF (book.place_limit_order trader side price amount config).2 := by
  unfold OrderBook.place_limit_order
  split_ifs
  · exact h
  · cases side with
    | Buy => exact wf_limit_buy_result book trader price amount config h hden
    | Sell => exact wf_limit_sell_result book trader price amount config h hden

theorem wf_place_market (book : OrderBook) (trader : Nat) (side : OrderSide)
    (amount : Nat) (config : DexConfig) (h : BookWF book) :
    BookWF (book.place_market_order trader side amount config).2 := by
  unfold OrderBook.place_market_order
  split_ifs
  · exact h
  · cases side with
    | Buy =>
      exact wf_match_buy book config
        (Order.new_market book.next_order_id trader OrderSide.Buy amount)
        book.total_volume (book.next_order_id + 1)
        (matchLevels config
          (Order.new_market book.next_order_id trader OrderSide.Buy amount)
          book.total_volume book.asks).volume h
    | Sell =>
      exact wf_match_sell book config
        (Order.new_market book.next_order_id trader OrderSide.Sell amount)
        book.total_volume (book.next_order_id + 1)
        (matchLevels config
          (Order.new_market book.next_order_id trader OrderSide.Sell amount)
          book.total_volume book.bids).volume h

theorem cancel_order_none (book : OrderBook) (oid : Nat)
    (hl : List.lookup oid book.orders = none) :
    book.cancel_order oid = (.error .OrderNotFound, book) := by
  unfold OrderBook.cancel_order
  rw [hl]

theorem cancel_order_buy_none (book : OrderBook) (oid : Nat) (lprice : Price)
    (hl : List.lookup oid book.orders = some ⟨.Buy, lprice⟩)
    (hrm : removeFromLevels true lprice oid book.bids = none) :
    book.cancel_order oid = (.error .OrderNotFound,
      ⟨book.pair, book.bids, book.asks, idxErase book.orders oid,
        book.next_order_id, book.total_volume⟩) := by
  unfold OrderBook.cancel_order
  rw [hl]
  simp only [hrm]

theorem cancel_order_buy_some (book : OrderBook) (oid : Nat) (lprice : Price)
    (o : Order) (bids' : List (Price × List Order))
    (hl : List.lookup oid book.orders = some ⟨.Buy, lprice⟩)
    (hrm : removeFromLevels true lprice oid book.bids = some (o, bids')) :
    book.cancel_order oid = (.ok o.cancel,
      ⟨book.pair, bids', book.asks, idxErase book.orders oid,
        book.next_order_id, book.total_volume⟩) := by
  unfold OrderBook.cancel_order
  rw [hl]
  simp only [hrm]

theorem cancel_order_sell_none (book : OrderBook) (oid : Nat) (lprice : Price)
    (hl : List.lookup oid book.orders = some ⟨.Sell, lprice⟩)
    (hrm : removeFromLevels false lprice oid book.asks = none) :
    book.cancel_order oid = (.error .OrderNotFound,
      ⟨book.pair, book.bids, book.asks, idxErase book.orders oid,
        book.next_order_id, book.total_volume⟩) := by
  unfold OrderBook.cancel_order
  rw [hl]
  simp only [hrm]

theorem cancel_order_sell_some (book : OrderBook) (oid : Nat) (lprice : Price)
    (o : Order) (asks' : List (Price × List Order))
    (hl : List.lookup oid book.orders = some ⟨.Sell, lprice⟩)
    (hrm : removeFromLevels false lprice oid book.asks = some (o, asks')) :
    book.cancel_order oid = (.ok o.cancel,
      ⟨book.pair, book.bids, asks', idxErase book.orders oid,
        book.next_order_id, book.total_volume⟩) := by
  unfold OrderBook.cancel_order
  rw [hl]
  simp only [hrm]

theorem wf_cancel (book : OrderBook) (oid : Nat) (h : BookWF book) :
    BookWF (book.cancel_order oid).2 := by
  have hmid : BookWF ⟨book.pair, book.bids, book.asks,
      idxErase book.orders oid, book.next_order_id, book.total_volume⟩ := by
    refine ⟨h.bids, h.asks, ?_⟩
    intro oid2 loc2 hl2
    have hl2' : List.lookup oid2 (idxErase book.orders oid) = some loc2 := hl2
    exact h.idx oid2 loc2 (lookup_idxErase hl2').1
  cases hl : List.lookup oid book.orders with
  | none => rw [cancel_order_none book oid hl]; exact h
  | some loc =>
    obtain ⟨lside, lprice⟩ := loc
    cases lside with
    | Buy =>
      cases hrm : removeFromLevels true lprice oid book.bids with
      | none => rw [cancel_order_buy_none book oid lprice hl hrm]; exact hmid
      | some ro =>
        obtain ⟨o, bids'⟩ := ro
        rw [cancel_order_buy_some book oid lprice o bids' hl hrm]
        obtain ⟨hid, -, -, hkeep⟩ :=
          removeFromLevels_spec true lprice oid book.bids o bids' hrm
        refine ⟨sideWF_remove true lprice oid book.bids o bids' hrm h.bids,
          h.asks, ?_⟩
        intro oid2 loc2 hl2
        have hl2' : List.lookup oid2 (idxErase book.orders oid) = some loc2 := hl2
        obtain ⟨h1, hne⟩ := lookup_idxErase hl2'
        obtain ⟨lvl, hlm, o2, ho2, hid2⟩ := h.idx oid2 loc2 h1
        rcases List.mem_append.mp hlm with hb | ha
        · obtain ⟨lvl', hl'', ho'⟩ := hkeep lvl hb o2 ho2 (by rw [hid2]; exact hne)
          exact ⟨lvl', List.mem_append.mpr (Or.inl hl''), o2, ho', hid2⟩
        · exact ⟨lvl, List.mem_append.mpr (Or.inr ha), o2, ho2, hid2⟩
    | Sell =>
      cases hrm : removeFromLevels false lprice oid book.asks with
      | none => rw [cancel_order_sell_none book oid lprice hl hrm]; exact hmid
      | some ro =>
        obtain ⟨o, asks'⟩ := ro
        rw [cancel_order_sell_some book oid lprice o asks' hl hrm]
        obtain ⟨hid, -, -, hkeep⟩ :=
          removeFromLevels_spec false lprice oid book.asks o asks' hrm
        refine ⟨h.bids,
          sideWF_remove false lprice oid book.asks o asks' hrm h.asks, ?_⟩
        intro oid2 loc2 hl2
        have hl2' : List.lookup oid2 (idxErase book.orders oid) = some loc2 := hl2
        obtain ⟨h1, hne⟩ := lookup_idxErase hl2'
        obtain ⟨lvl, hlm, o2, ho2, hid2⟩ := h.idx oid2 loc2 h1
        rcases List.mem_append.mp hlm with hb | ha
        · exact ⟨lvl, List.mem_append.mpr (Or.inl hb), o2, ho2, hid2⟩
        · obtain ⟨lvl', hl'', ho'⟩ := hkeep lvl ha o2 ho2 (by rw [hid2]; exact hne)
          exact ⟨lvl', List.mem_append.mpr (Or.inr hl''), o2, ho', hid2⟩

theorem priceCompatible_false_buy {taker : Order} {p : Price}
    (hside : taker.side = OrderSide.Buy)
    (h : priceCompatible taker p = false) : ratLt taker.price p := by
  cases hcv : Price.cmp_value taker.price p with
  | lt => exact cmp_value_lt hcv
  | eq =>
    unfold priceCompatible at h
    rw [hside] at h
    simp [hcv] at h
    exact absurd h (by decide)
  | gt =>
    unfold priceCompatible at h
    rw [hside] at h
    simp [hcv] at h
    exact absurd h (by decide)

theorem priceCompatible_false_sell {taker : Order} {p : Price}
    (hside : taker.side = OrderSide.Sell)
    (h : priceCompatible taker p = false) : ratLt p taker.price := by
  cases hcv : Price.cmp_value taker.price p with
  | gt => exact cmp_value_gt hcv
  | eq =>
    unfold priceCompatible at h
    rw [hside] at h
    simp [hcv] at h
    exact absurd h (by decide)
  | lt =>
    unfold priceCompatible at h
    rw [hside] at h
    simp [hcv] at h
    exact absurd h (by decide)

theorem add_order_buy (book : OrderBook) (o : Order)
    (hside : o.side = OrderSide.Buy) :
    book.add_order_to_book o = ⟨book.pair, insertIntoLevels true o book.bids,
      book.asks, idxInsert book.orders o.id ⟨.Buy, o.price⟩,
      book.next_order_id, book.total_volume⟩ := by
  unfold OrderBook.add_order_to_book
  rw [hside]

theorem add_order_sell (book : OrderBook) (o : Order)
    (hside : o.side = OrderSide.Sell) :
    book.add_order_to_book o = ⟨book.pair, book.bids,
      insertIntoLevels false o book.asks,
      idxInsert book.orders o.id ⟨.Sell, o.price⟩,
      book.next_order_id, book.total_volume⟩ := by
  unfold OrderBook.add_order_to_book
  rw [hside]

theorem cross_limit_buy_result (book : OrderBook) (trader : Nat) (price : Price)
    (amount : Nat) (config : DexConfig)
    (hallow : config.allow_self_trade = true)
    (hwf : BookWF book) (hc : crossBook book) :
    crossBook (if ((matchLevels config
          (Order.new_limit book.next_order_id trader .Buy price amount)
          book.total_volume book.asks).taker.remaining_amount ≠ 0 ∧
        (matchLevels config
          (Order.new_limit book.next_order_id trader .Buy price amount)
          book.total_volume book.asks).taker.is_active = true) then
        OrderBook.add_order_to_book
          ⟨book.pair, book.bids,
            (matchLevels config
              (Order.new_limit book.next_order_id trader .Buy price amount)
              book.total_volume book.asks).levels,
            eraseIds book.orders (matchLevels config
              (Order.new_limit book.next_order_id trader .Buy price amount)
              book.total_volume book.asks).removed,
            book.next_order_id + 1,
            (matchLevels config
              (Order.new_limit book.next_order_id trader .Buy price amount)
              book.total_volume book.asks).volume⟩
          (matchLevels config
            (Order.new_limit book.next_order_id trader .Buy price amount)
            book.total_volume book.asks).taker
      else
        ⟨book.pair, book.bids,
          (matchLevels config
            (Order.new_limit book.next_order_id trader .Buy price amount)
            book.total_volume book.asks).levels,
          eraseIds book.orders (matchLevels config
            (Order.new_limit book.next_order_id trader .Buy price amount)
            book.total_volume book.asks).removed,
          book.next_order_id + 1,
          (matchLevels config
            (Order.new_limit book.next_order_id trader .Buy price amount)
            book.total_volume book.asks).volume⟩) := by
  set r := matchLevels config
    (Order.new_limit book.next_order_id trader .Buy price amount)
    book.total_volume book.asks with hr
  have hsl : (r.levels.map Prod.fst).Sublist (book.asks.map Prod.fst) := by
    rw [hr]
    exact matchLevels_levels_sublist config _ book.total_volume book.asks
  have hside : r.taker.side = OrderSide.Buy := by
    rw [hr]
    exact matchLevels_taker_side config _ book.total_volume book.asks
  have hprice : r.taker.price = price := by
    rw [hr]
    exact matchLevels_taker_price config _ book.total_volume book.asks
  split_ifs with hcond
  · rw [add_order_buy _ _ hside]
    intro pb hpb pa hpa
    have hpb' : pb ∈ (insertIntoLevels true r.taker book.bids).map Prod.fst := hpb
    have hpa' : pa ∈ r.levels.map Prod.fst := hpa
    rcases insertIntoLevels_prices true r.taker book.bids pb hpb' with hP | hold
    · cases hlv : r.levels with
      | nil =>
        rw [hlv] at hpa'
        simp at hpa'
      | cons lvl0 tail =>
        have hrem : (matchLevels config
            (Order.new_limit book.next_order_id trader .Buy price amount)
            book.total_volume book.asks).taker.remaining_amount ≠ 0 := by
          rw [← hr]
          exact hcond.1
        have hhead : (matchLevels config
            (Order.new_limit book.next_order_id trader .Buy price amount)
            book.total_volume book.asks).levels.head? = some lvl0 := by
          rw [← hr, hlv]
          rfl
        have hbreak := matchLevels_break config
          (Order.new_limit book.next_order_id trader .Buy price amount)
          book.total_volume book.asks hallow hwf.asks.2.1 hrem lvl0 hhead
        have hPlt : ratLt price lvl0.1 := priceCompatible_false_buy rfl hbreak
        have hpw : (r.levels.map Prod.fst).Pairwise (ratRel false) :=
          hwf.asks.1.sublist hsl
        have hden0 : 0 < lvl0.1.denominator := by
          have hwfm : sideWF false r.levels := by
            rw [hr]
            exact sideWF_match false config _ book.total_volume book.asks hwf.asks
          exact hwfm.2.2 lvl0 (by rw [hlv]; exact List.mem_cons_self _ _)
        rw [hP, hprice]
        rw [hlv] at hpa'
        simp only [List.map_cons, List.mem_cons] at hpa'
        rcases hpa' with he | ht
        · exact he ▸ hPlt
        · rw [hlv] at hpw
          simp only [List.map_cons] at hpw
          have h2 : ratLt lvl0.1 pa := (List.pairwise_cons.mp hpw).1 pa ht
          exact ratLt_trans hden0 hPlt h2
    · exact hc pb hold pa (hsl.subset hpa')
  · intro pb hpb pa hpa
    have hpb' : pb ∈ book.bids.map Prod.fst := hpb
    have hpa' : pa ∈ r.levels.map Prod.fst := hpa
    exact hc pb hpb' pa (hsl.subset hpa')

theorem cross_limit_sell_result (book : OrderBook) (trader : Nat) (price : Price)
    (amount : Nat) (config : DexConfig)
    (hallow : config.allow_self_trade = true)
    (hwf : BookWF book) (hc : crossBook book) :
    crossBook (if ((matchLevels config
          (Order.new_limit book.next_order_id trader .Sell price amount)
          book.total_volume book.bids).taker.remaining_amount ≠ 0 ∧
        (matchLevels config
          (Order.new_limit book.next_order_id trader .Sell price amount)
          book.total_volume book.bids).taker.is_active = true) then
        OrderBook.add_order_to_book
          ⟨book.pair,
            (matchLevels config
              (Order.new_limit book.next_order_id trader .Sell price amount)
              book.total_volume book.bids).levels,
            book.asks,
            eraseIds book.orders (matchLevels config
              (Order.new_limit book.next_order_id trader .Sell price amount)
              book.total_volume book.bids).removed,
            book.next_order_id + 1,
            (matchLevels config
              (Order.new_limit book.next_order_id trader .Sell price amount)
              book.total_volume book.bids).volume⟩
          (matchLevels config
            (Order.new_limit book.next_order_id trader .Sell price amount)
            book.total_volume book.bids).taker
      else
        ⟨book.pair,
          (matchLevels config
            (Order.new_limit book.next_order_id trader .Sell price amount)
            book.total_volume book.bids).levels,
          book.asks,
          eraseIds book.orders (matchLevels config
            (Order.new_limit book.next_order_id trader .Sell price amount)
            book.total_volume book.bids).removed,
          book.next_order_id + 1,
          (matchLevels config
            (Order.new_limit book.next_order_id trader .Sell price amount)
            book.total_volume book.bids).volume⟩) := by
  set r := matchLevels config
    (Order.new_limit book.next_order_id trader .Sell price amount)
    book.total_volume book.bids with hr
  have hsl : (r.levels.map Prod.fst).Sublist (book.bids.map Prod.fst) := by
    rw [hr]
    exact matchLevels_levels_sublist config _ book.total_volume book.bids
  have hside : r.taker.side = OrderSide.Sell := by
    rw [hr]
    exact matchLevels_taker_side config _ book.total_volume book.bids
  have hprice : r.taker.price = price := by
    rw [hr]
    exact matchLevels_taker_price config _ book.total_volume book.bids
  split_ifs with hcond
  · rw [add_order_sell _ _ hside]
    intro pb hpb pa hpa
    have hpb' : pb ∈ r.levels.map Prod.fst := hpb
    have hpa' : pa ∈ (insertIntoLevels false r.taker book.asks).map Prod.fst := hpa
    rcases insertIntoLevels_prices false r.taker book.asks pa hpa' with hP | hold
    · cases hlv : r.levels with
      | nil =>
        rw [hlv] at hpb'
        simp at hpb'
      | cons lvl0 tail =>
        have hrem : (matchLevels config
            (Order.new_limit book.next_order_id trader .Sell price amount)
            book.total_volume book.bids).taker.remaining_amount ≠ 0 := by
          rw [← hr]
          exact hcond.1
        have hhead : (matchLevels config
            (Order.new_limit book.next_order_id trader .Sell price amount)
            book.total_volume book.bids).levels.head? = some lvl0 := by
          rw [← hr, hlv]
          rfl
        have hbreak := matchLevels_break config
          (Order.new_limit book.next_order_id trader .Sell price amount)
          book.total_volume book.bids hallow hwf.bids.2.1 hrem lvl0 hhead
        have hPlt : ratLt lvl0.1 price := priceCompatible_false_sell rfl hbreak
        have hpw : (r.levels.map Prod.fst).Pairwise (ratRel true) :=
          hwf.bids.1.sublist hsl
        have hden0 : 0 < lvl0.1.denominator := by
          have hwfm : sideWF true r.levels := by
            rw [hr]
            exact sideWF_match true config _ book.total_volume book.bids hwf.bids
          exact hwfm.2.2 lvl0 (by rw [hlv]; exact List.mem_cons_self _ _)
        rw [hP, hprice]
        rw [hlv] at hpb'
        simp only [List.map_cons, List.mem_cons] at hpb'
        rcases hpb' with he | ht
        · exact he ▸ hPlt
        · rw [hlv] at hpw
          simp only [List.map_cons] at hpw
          have h2 : ratLt pb lvl0.1 := (List.pairwise_cons.mp hpw).1 pb ht
          exact ratLt_trans hden0 h2 hPlt
    · exact hc pb (hsl.subset hpb') pa hold
  · intro pb hpb pa hpa
    have hpb' : pb ∈ r.levels.map Prod.fst := hpb
    have hpa' : pa ∈ book.asks.map Prod.fst := hpa
    exact hc pb (hsl.subset hpb') pa hpa'

theorem cross_place_limit (book : OrderBook) (trader : Nat) (side : OrderSide)
    (price : Price) (amount : Nat) (config : DexConfig)
    (hallow : config.allow_self_trade = true)
    (hwf : BookWF book) (hc : crossBook book) :
    crossBook (book.place_limit_order trader side price amount config).2 := by
  unfold OrderBook.place_limit_order
  split_ifs
  · exact hc
  · cases side with
    | Buy => exact cross_limit_buy_result book trader price amount config hallow hwf hc
    | Sell => exact cross_limit_sell_result book trader price amount config hallow hwf hc

theorem cross_place_market (book : OrderBook) (trader : Nat) (side : OrderSide)
    (amount : Nat) (config : DexConfig)
    (_hwf : BookWF book) (hc : crossBook book) :
    crossBook (book.place_market_order trader side amount config).2 := by
  unfold OrderBook.place_market_order
  split_ifs
  · exact hc
  · cases side with
    | Buy =>
      intro pb hpb pa hpa
      have hpb' : pb ∈ book.bids.map Prod.fst := hpb
      have hpa' : pa ∈ (matchLevels config
          (Order.new_market book.next_order_id trader OrderSide.Buy amount)
          book.total_volume book.asks).levels.map Prod.fst := hpa
      exact hc pb hpb' pa
        ((matchLevels_levels_sublist config _ book.total_volume book.asks).subset hpa')
    | Sell =>
      intro pb hpb pa hpa
      have hpb' : pb ∈ (matchLevels config
          (Order.new_market book.next_order_id trader OrderSide.Sell amount)
          book.total_volume book.bids).levels.map Prod.fst := hpb
      have hpa' : pa ∈ book.asks.map Prod.fst := hpa
      exact hc pb
        ((matchLevels_levels_sublist config _ book.total_volume book.bids).subset hpb')
        pa hpa'

theorem cross_cancel (book : OrderBook) (oid : Nat) (hc : crossBook book) :
    crossBook (book.cancel_order oid).2 := by
  cases hl : List.lookup oid book.orders with
  | none =>
    rw [cancel_order_none book oid hl]
    exact hc
  | some loc =>
    obtain ⟨lside, lprice⟩ := loc
    cases lside with
    | Buy =>
      cases hrm : removeFromLevels true lprice oid book.bids with
      | none =>
        rw [cancel_order_buy_none book oid lprice hl hrm]
        exact hc
      | some ro =>
        obtain ⟨o, bids'⟩ := ro
        rw [cancel_order_buy_some book oid lprice o bids' hl hrm]
        obtain ⟨-, hsub, -, -⟩ :=
          removeFromLevels_spec true lprice oid book.bids o bids' hrm
        intro pb hpb pa hpa
        exact hc pb (hsub.subset hpb) pa hpa
    | Sell =>
      cases hrm : removeFromLevels false lprice oid book.asks with
      | none =>
        rw [cancel_order_sell_none book oid lprice hl hrm]
        exact hc
      | some ro =>
        obtain ⟨o, asks'⟩ := ro
        rw [cancel_order_sell_some book oid lprice o asks' hl hrm]
        obtain ⟨-, hsub, -, -⟩ :=
          removeFromLevels_spec false lprice oid book.asks o asks' hrm
        intro pb hpb pa hpa
        exact hc pb hpb pa (hsub.subset hpa)

/-- Book states reachable from a fresh book by the three mutating operations,
each run under some configuration satisfying `P`. Limit placements carry the
host-side validation of `handle_place_limit_order` (nonzero numerator and
denominator, both within `u128`). -/
inductive ReachableBook (P : DexConfig → Prop) : OrderBook → Prop where
  | new (pair : Pair) : ReachableBook P (OrderBook.new pair)
  | limit (book : OrderBook) (trader : Nat) (side : OrderSide) (price : Price)
      (amount : Nat) (config : DexConfig) (hP : P config) (hp : priceOk price)
      (h : ReachableBook P book) :
      ReachableBook P (book.place_limit_order trader side price amount config).2
  | market (book : OrderBook) (trader : Nat) (side : OrderSide) (amount : Nat)
      (config : DexConfig) (hP : P config) (h : ReachableBook P book) :
      ReachableBook P (book.place_market_order trader side amount config).2
  | cancel (book : OrderBook) (oid : Nat) (h : ReachableBook P book) :
      ReachableBook P (book.cancel_order oid).2

theorem wf_new (pair : Pair) : BookWF (OrderBook.new pair) := by
  refine ⟨⟨?_, ?_, ?_⟩, ⟨?_, ?_, ?_⟩, ?_⟩
  · simp [OrderBook.new]
  · simp [OrderBook.new]
  · simp [OrderBook.new]
  · simp [OrderBook.new]
  · simp [OrderBook.new]
  · simp [OrderBook.new]
  · intro oid loc h
    simp [OrderBook.new, List.lookup] at h

theorem reachable_wf {P : DexConfig → Prop} {book : OrderBook}
    (h : ReachableBook P book) : BookWF book := by
  induction h with
  | new pair => exact wf_new pair
  | limit book trader side price amount config hP hp h ih =>
    exact wf_place_limit book trader side price amount config ih hp.2.1
  | market book trader side amount config hP h ih =>
    exact wf_place_market book trader side amount config ih
  | cancel book oid h ih =>
    exact wf_cancel book oid ih

theorem reachable_cross {book : OrderBook}
    (h : ReachableBook (fun c => c.allow_self_trade = true) book) :
    crossBook book := by
  induction h with
  | new pair =>
    intro pb hpb pa hpa
    simp [OrderBook.new] at hpb
  | limit book trader side price amount config hP hp h ih =>
    exact cross_place_limit book trader side price amount config hP
      (reachable_wf h) ih
  | market book trader side amount config hP h ih =>
    exact cross_place_market book trader side amount config (reachable_wf h) ih
  | cancel book oid h ih =>
    exact cross_cancel book oid ih

/-- The default configuration with self trading allowed. -/
def cfgAllow : DexConfig := { DexConfig.default with allow_self_trade := true }

/-- A buy of 5 at 100/1 by trader 3 and a sell of 5 at 110/1 by trader 4, both
resting: a two-sided uncrossed book. -/
def bkBoth : OrderBook :=
  (((OrderBook.new ⟨0, 1⟩).place_limit_order 3 .Buy ⟨100, 1⟩ 5
      cfgAllow).2.place_limit_order 4 .Sell ⟨110, 1⟩ 5 cfgAllow).2

/-- Trader 7 rests Sell 10 @ 2000/1 and then, under the default configuration
(`allow_self_trade = false`), places Buy 5 @ 2000/1: the self-trade skip leaves
the own ask untouched and the buy rests at the same price. -/
def bkSelfCross : OrderBook :=
  (((OrderBook.new ⟨0, 1⟩).place_limit_order 7 .Sell ⟨2000, 1⟩ 10
      DexConfig.default).2.place_limit_order 7 .Buy ⟨2000, 1⟩ 5
      DexConfig.default).2

/-- C1: the spec claims that on every reachable book `best_bid < best_ask`
whenever both exist. As stated this is false (see
`crossed_book_counterexample`): under the default configuration the self-trade
skip lets a taker rest a bid that crosses its own ask. Amended claim, proved
here: for every book reachable by `place_limit_order`, `place_market_order`
and `cancel_order` under configurations with `allow_self_trade = true` (limit
prices validated as in the host handler: nonzero and `u128`-bounded), whenever
`best_bid` and `best_ask` both return a price the best bid is strictly below
the best ask in the exact rational order, i.e.
`bid.num * ask.den < ask.num * bid.den`. -/
theorem no_crossed_book (book : OrderBook)
    (h : ReachableBook (fun c => c.allow_self_trade = true) book)
    (pb pa : Price) (hb : book.best_bid = some pb)
    (ha : book.best_ask = some pa) :
    pb.numerator * pa.denominator < pa.numerator * pb.denominator := by
  have hc := reachable_cross h
  have hpb : pb ∈ book.bids.map Prod.fst := by
    cases hbb : book.bids with
    | nil =>
      unfold OrderBook.best_bid at hb
      rw [hbb] at hb
      simp at hb
    | cons l rest =>
      unfold OrderBook.best_bid at hb
      rw [hbb] at hb
      simp only [List.head?_cons, Option.map_some', Option.some.injEq] at hb
      simp only [List.map_cons, List.mem_cons]
      exact Or.inl hb.symm
  have hpa : pa ∈ book.asks.map Prod.fst := by
    cases haa : book.asks with
    | nil =>
      unfold OrderBook.best_ask at ha
      rw [haa] at ha
      simp at ha
    | cons l rest =>
      unfold OrderBook.best_ask at ha
      rw [haa] at ha
      simp only [List.head?_cons, Option.map_some', Option.some.injEq] at ha
      simp only [List.map_cons, List.mem_cons]
      exact Or.inl ha.symm
  exact hc pb hpb pa hpa

/-- C1, counterexample to the claim as stated: `bkSelfCross` is reachable from
a fresh book by two `place_limit_order` calls under the default configuration,
its best bid and best ask are both 2000/1, and 2000/1 is not strictly below
2000/1, neither rationally nor for the saturating comparator `cmp_value`. -/
theorem crossed_book_counterexample :
    ReachableBook (fun _ => True) bkSelfCross ∧
    bkSelfCross.best_bid = some ⟨2000, 1⟩ ∧
    bkSelfCross.best_ask = some ⟨2000, 1⟩ ∧
    ¬ ratLt (⟨2000, 1⟩ : Price) ⟨2000, 1⟩ ∧
    Price.cmp_value ⟨2000, 1⟩ ⟨2000, 1⟩ ≠ Ordering.lt :=
  ⟨ReachableBook.limit _ 7 .Buy ⟨2000, 1⟩ 5 DexConfig.default trivial
     (by constructor <;> simp [U128MAX])
     (ReachableBook.limit _ 7 .Sell ⟨2000, 1⟩ 10 DexConfig.default trivial
       (by constructor <;> simp [U128MAX])
       (ReachableBook.new ⟨0, 1⟩)),
   by rfl, by rfl, by decide, by decide⟩

/-- Witness for C1 on the concrete two-sided book `bkBoth`, reachable under
`cfgAllow`: best bid 100/1, best ask 110/1, and 100·1 < 110·1. -/
theorem no_crossed_book_witness :
    (bkBoth.best_bid = some ⟨100, 1⟩ ∧ bkBoth.best_ask = some ⟨110, 1⟩) ∧
    (⟨100, 1⟩ : Price).numerator * (⟨110, 1⟩ : Price).denominator
      < (⟨110, 1⟩ : Price).numerator * (⟨100, 1⟩ : Price).denominator :=
  ⟨⟨by rfl, by rfl⟩,
   no_crossed_book bkBoth
     (ReachableBook.limit _ 4 .Sell ⟨110, 1⟩ 5 cfgAllow rfl
       (by constructor <;> simp [U128MAX])
       (ReachableBook.limit _ 3 .Buy ⟨100, 1⟩ 5 cfgAllow rfl
         (by constructor <;> simp [U128MAX])
         (ReachableBook.new ⟨0, 1⟩)))
     ⟨100, 1⟩ ⟨110, 1⟩ (by rfl) (by rfl)⟩

theorem lookup_idxErase_self (l : List (Nat × OrderLocation)) (k : Nat) :
    List.lookup k (idxErase l k) = none := by
  cases hl : List.lookup k (idxErase l k) with
  | none => rfl
  | some loc => exact absurd (lookup_idxErase hl).2 (by simp)

theorem removeFirstById_of_find? (oid : Nat) (q : List Order) (o : Order)
    (h : q.find? (fun x => x.id == oid) = some o) :
    ∃ q', removeFirstById oid q = some (o, q') := by
  induction q with
  | nil => simp at h
  | cons a rest ih =>
    by_cases ha : a.id = oid
    · rw [List.find?_cons_of_pos _ (by simp [ha])] at h
      injection h with h1
      refine ⟨rest, ?_⟩
      unfold removeFirstById
      rw [if_pos ha, h1]
    · rw [List.find?_cons_of_neg _ (by simp [ha])] at h
      obtain ⟨q', hq⟩ := ih h
      refine ⟨a :: q', ?_⟩
      unfold removeFirstById
      rw [if_neg ha, hq]

/-- The level walk of `cancel_order` agrees with the `BTreeMap::get` walk of
`get_order`: if the queue found for the price key contains the order, the
removal succeeds and performs exactly the in-place queue surgery, dropping the
level when its queue empties. -/
theorem findLevelQueue_removeFromLevels (is_bid : Bool) (P : Price) (oid : Nat)
    (levels : List (Price × List Order)) :
    ∀ q, findLevelQueue is_bid P levels = some q →
    ∀ o q', removeFirstById oid q = some (o, q') →
    ∃ pre p post, levels = pre ++ (p, q) :: post ∧
      removeFromLevels is_bid P oid levels
        = some (o, if q' = [] then pre ++ post else pre ++ (p, q') :: post) := by
  induction levels with
  | nil =>
    intro q hq
    simp [findLevelQueue] at hq
  | cons lvl rest ih =>
    obtain ⟨p0, q0⟩ := lvl
    intro q hq o q' hrm
    unfold findLevelQueue at hq
    cases hcmp : levelCmp is_bid P p0 with
    | lt =>
      rw [hcmp] at hq
      simp at hq
    | eq =>
      rw [hcmp] at hq
      simp only [Option.some.injEq] at hq
      subst hq
      refine ⟨[], p0, rest, rfl, ?_⟩
      unfold removeFromLevels
      simp only [hcmp, hrm]
      simp
    | gt =>
      rw [hcmp] at hq
      obtain ⟨pre, p, post, hdec, hrmL⟩ := ih q hq o q' hrm
      refine ⟨(p0, q0) :: pre, p, post, by rw [hdec]; simp, ?_⟩
      unfold removeFromLevels
      simp only [hcmp, hrmL]
      split_ifs <;> simp

/-- The opposite book side (statement helper). -/
def otherSide : OrderSide → OrderSide
  | .Buy => .Sell
  | .Sell => .Buy

/-- The level map of one side of the book (statement helper). -/
def sideLevels (book : OrderBook) : OrderSide → List (Price × List Order)
  | .Buy => book.bids
  | .Sell => book.asks

/-- C6: `cancel_order` with an id unknown to the order index returns
`OrderNotFound` with the book unchanged; on every reachable book an id known
to the index belongs to a resting active order (so the id of a terminal —
filled or cancelled — order is unknown and also yields `OrderNotFound`
unchanged); and for an id that `get_order` resolves to a resting order `o`,
`cancel_order` returns `o` with status `Cancelled`, removes the index entry
(so the order is no longer retrievable), and performs exactly the queue
surgery on the order's side: the order is removed from its price level's
queue and the level is dropped precisely when its queue becomes empty, the
other side untouched. -/
theorem cancel_order_spec (book : OrderBook) (oid : Nat) :
    (List.lookup oid book.orders = none →
      book.cancel_order oid = (.error .OrderNotFound, book)) ∧
    (ReachableBook (fun _ => True) book →
      ∀ loc, List.lookup oid book.orders = some loc →
        ∃ lvl ∈ book.bids ++ book.asks, ∃ o ∈ lvl.2,
          o.id = oid ∧ o.is_active = true) ∧
    (∀ o, book.get_order oid = some o →
      (book.cancel_order oid).1 = .ok o.cancel ∧
      o.cancel.status = OrderStatus.Cancelled ∧
      (book.cancel_order oid).2.orders = idxErase book.orders oid ∧
      (book.cancel_order oid).2.get_order oid = none ∧
      ∀ loc, List.lookup oid book.orders = some loc →
        ∃ pre p q q' post,
          sideLevels book loc.side = pre ++ (p, q) :: post ∧
          removeFirstById oid q = some (o, q') ∧
          sideLevels (book.cancel_order oid).2 loc.side
            = (if q' = [] then pre ++ post else pre ++ (p, q') :: post) ∧
          sideLevels (book.cancel_order oid).2 (otherSide loc.side)
            = sideLevels book (otherSide loc.side)) := by
  refine ⟨fun hl => cancel_order_none book oid hl, ?_, ?_⟩
  · intro hreach loc hl
    have hwf := reachable_wf hreach
    obtain ⟨lvl, hlvl, o, ho, hid⟩ := hwf.idx oid loc hl
    refine ⟨lvl, hlvl, o, ho, hid, ?_⟩
    rcases List.mem_append.mp hlvl with hb | ha
    · exact hwf.bids.2.1 lvl hb o ho
    · exact hwf.asks.2.1 lvl ha o ho
  · intro o hget
    cases hl : List.lookup oid book.orders with
    | none =>
      unfold OrderBook.get_order at hget
      simp only [hl] at hget
      exact Option.noConfusion hget
    | some loc =>
      obtain ⟨lside, lprice⟩ := loc
      cases lside with
      | Buy =>
        cases hq : findLevelQueue true lprice book.bids with
        | none =>
          unfold OrderBook.get_order at hget
          simp only [hl, hq] at hget
          exact Option.noConfusion hget
        | some q0 =>
          have hfind : q0.find? (fun x => x.id == oid) = some o := by
            unfold OrderBook.get_order at hget
            simp only [hl, hq] at hget
            exact hget
          obtain ⟨q', hq'⟩ := removeFirstById_of_find? oid q0 o hfind
          obtain ⟨pre, p, post, hdec, hrmL⟩ :=
            findLevelQueue_removeFromLevels true lprice oid book.bids q0 hq o q' hq'
          have hcanc := cancel_order_buy_some book oid lprice o _ hl hrmL
          refine ⟨by rw [hcanc], rfl, by rw [hcanc], ?_, ?_⟩
          · rw [hcanc]
            simp only [OrderBook.get_order, lookup_idxErase_self]
          · intro loc2 hl2
            injection hl2 with hloc
            subst hloc
            refine ⟨pre, p, q0, q', post, hdec, hq', by rw [hcanc]; rfl,
              by rw [hcanc]; rfl⟩
      | Sell =>
        cases hq : findLevelQueue false lprice book.asks with
        | none =>
          unfold OrderBook.get_order at hget
          simp only [hl, hq] at hget
          exact Option.noConfusion hget
        | some q0 =>
          have hfind : q0.find? (fun x => x.id == oid) = some o := by
            unfold OrderBook.get_order at hget
            simp only [hl, hq] at hget
            exact hget
          obtain ⟨q', hq'⟩ := removeFirstById_of_find? oid q0 o hfind
          obtain ⟨pre, p, post, hdec, hrmL⟩ :=
            findLevelQueue_removeFromLevels false lprice oid book.asks q0 hq o q' hq'
          have hcanc := cancel_order_sell_some book oid lprice o _ hl hrmL
          refine ⟨by rw [hcanc], rfl, by rw [hcanc], ?_, ?_⟩
          · rw [hcanc]
            simp only [OrderBook.get_order, lookup_idxErase_self]
          · intro loc2 hl2
            injection hl2 with hloc
            subst hloc
            refine ⟨pre, p, q0, q', post, hdec, hq', by rw [hcanc]; rfl,
              by rw [hcanc]; rfl⟩

/-- Witness for C6 on `bkAsk` (one resting ask, id 1): cancelling the unknown
id 99 errors with the book unchanged, and cancelling id 1 returns the resting
order with status Cancelled. -/
theorem cancel_order_spec_witness :
    bkAsk.cancel_order 99 = (.error .OrderNotFound, bkAsk) ∧
    (bkAsk.cancel_order 1).1
      = .ok (Order.new_limit 1 11 .Sell ⟨100, 1⟩ 500).cancel :=
  ⟨(cancel_order_spec bkAsk 99).1 (by rfl),
   ((cancel_order_spec bkAsk 1).2.2 (Order.new_limit 1 11 .Sell ⟨100, 1⟩ 500)
      (by rfl)).1⟩

/-- The trade result of market-buying 1000 against `bkAsk` (spec scenario 6). -/
def trPartial : TradeResult :=
  { taker_order_id := 2, fills := [fillAsk], remaining_amount := 500,
    fully_filled := false }

/-- Witness for C7: a market buy of 1000 against a single resting ask of 500
fills 500, reports `fully_filled = false` with residual `1000 - 500 = 500`,
and rests nothing new in the book. -/
theorem market_order_no_rest_witness :
    (∀ i ∈ bookOrderIds bkAskAfter, i ∈ bookOrderIds bkAsk) ∧
    (trPartial.fully_filled = false ∧
     trPartial.remaining_amount
       = 1000 - marketMatchable DexConfig.default 13 .Buy bkAsk ∧
     0 < trPartial.remaining_amount) :=
  ⟨(market_order_no_rest bkAsk 13 .Buy 1000 DexConfig.default trPartial
      bkAskAfter (by rfl)).1,
   (market_order_no_rest bkAsk 13 .Buy 1000 DexConfig.default trPartial
      bkAskAfter (by rfl)).2 (by decide)⟩

end Dex
